import Mathlib

/-!
Verification development for the PrimerPioneer fragment-manipulation engine.

This file gives a shallow embedding of the engine's core modules:

* `common_utils/sequence_tools.py`  (`reverse_complement`)
* `tools_pool/simulate_restriction_digestion.py`
* `tools_pool/simulate_ligation.py`
* `multi_agent_system/tools_pool/v0/tools_pool/simulate_pcr.py`

DNA sequences are embedded as `List Char`; Python `dict`-shaped records become
Lean structures; Python `raise ValueError` becomes `Except.error`; the file
I/O wrappers (`load_sequence_from_json`, `write_record_to_json`,
`output_path` handling and debugging `print`s) are outside the embedded core:
every embedded engine takes the already-loaded records as values, exactly as
the spec's §6 describes the engines' contract.  Python's nondeterministic
`uuid` identifiers are embedded as the fixed opaque string `""`; no theorem
below looks at an `id` field.
-/

namespace PrimerPioneer

/-- ASCII uppercasing of a sequence, embedding Python `str.upper()`
(the engines only ever apply it to ASCII base letters). -/
def upperL (s : List Char) : List Char := s.map Char.toUpper

/-! ## `common_utils/sequence_tools.py` -/

namespace SequenceTools

/-- The fixed complement table of `reverse_complement`
(`sequence_tools.py` lines 61-76); characters outside the table map to `'N'`. -/
def complementN (c : Char) : Char :=
  if c = 'A' then 'T' else if c = 'T' then 'A'
  else if c = 'C' then 'G' else if c = 'G' then 'C'
  else if c = 'N' then 'N'
  else if c = 'R' then 'Y' else if c = 'Y' then 'R'
  else if c = 'S' then 'S' else if c = 'W' then 'W'
  else if c = 'K' then 'M' else if c = 'M' then 'K'
  else if c = 'B' then 'V' else if c = 'D' then 'H'
  else if c = 'H' then 'D' else if c = 'V' then 'B'
  else 'N'

/-- `reverse_complement(sequence)` from `sequence_tools.py`:
`''.join(complement.get(base, 'N') for base in reversed(sequence.upper()))`. -/
def reverse_complement (s : List Char) : List Char :=
  ((upperL s).reverse).map complementN

/-- The domain of the complement table: the 15 uppercase characters the
table maps (A/T/C/G/N plus the IUPAC ambiguity codes). -/
def tableAlphabet : List Char :=
  ['A', 'T', 'C', 'G', 'N', 'R', 'Y', 'S', 'W', 'K', 'M', 'B', 'D', 'H', 'V']

end SequenceTools

/-! ## Generic scanning helpers shared by the engines -/

/-- `True` iff `site` occurs in `s` at 0-based position `i`
(an exact, full-length match, as Python's `re.escape`d patterns give). -/
def matchesAt (site s : List Char) (i : Nat) : Bool :=
  ((s.drop i).take site.length) == site

/-- All 0-based positions at which `site` occurs in `s` (used to state
"contains exactly one occurrence" hypotheses). -/
def occurrences (site s : List Char) : List Nat :=
  (List.range (s.length + 1)).filter (fun i => matchesAt site s i)

/-- Python `str.find`: index of the first occurrence of `pat` in `s`,
`none` for Python's `-1`. -/
def findSub (pat s : List Char) : Option Nat :=
  (List.range (s.length + 1)).find? (fun i => matchesAt pat s i)

/-- Worker for `findIter`: scan positions left to right; on a match at `i`,
record `i` and continue at `i + max |site| 1` (non-overlapping, like
`re.finditer`; the engines only call it with non-empty sites, for which the
step is exactly `|site|`).  `fuel` bounds the recursion; `|s| + 1` is enough
because the position strictly increases at every step. -/
def findIterAux (site s : List Char) : Nat → Nat → List Nat
  | 0, _ => []
  | fuel + 1, i =>
    if s.length < i then []
    else if matchesAt site s i then
      i :: findIterAux site s fuel (i + max site.length 1)
    else findIterAux site s fuel (i + 1)

/-- Embedding of `re.finditer(re.escape(site), s)`: the 0-based start
positions of the successive non-overlapping matches, leftmost first. -/
def findIter (site s : List Char) : List Nat :=
  findIterAux site s (s.length + 1) 0

/-! ## Shared record / fragment entities (`common_utils/sequence.py`) -/

/-- `EndType = Literal["blunt", "5_overhang", "3_overhang"]`. -/
inductive EndType where
  | blunt
  | fiveOverhang
  | threeOverhang
deriving DecidableEq, Repr

/-- `FragmentEnd`: `{kind, seq, length}`. -/
structure FragmentEnd where
  kind : EndType
  seq : List Char
  length : Nat
deriving DecidableEq, Repr

/-- The blunt end object `{"kind": "blunt", "seq": "", "length": 0}`. -/
def bluntEnd : FragmentEnd := ⟨EndType.blunt, [], 0⟩

instance : Inhabited FragmentEnd := ⟨bluntEnd⟩

/-- `Feature`: `{type, start, end, strand, ...}`; coordinates are Python
ints (ligation offset shifting can drive them negative), hence `Int`. -/
structure Feature where
  ftype : String
  start : Int
  stop : Int
  strand : Int
deriving DecidableEq, Repr

/-- `Fragment`: `{id, start, end, length, strand, overhang_5, overhang_3,
sequence}` plus the `name`/`features` keys the ligation engine reads
(`frag.get("name")`, `frag.get("features", [])`).  The source's `end` key is
`stop` here (`end` is a Lean keyword); `id` is the opaque uuid, embedded as
`""`. -/
structure Fragment where
  id : String := ""
  name : String := ""
  start : Nat := 0
  stop : Nat := 0
  length : Nat := 0
  strand : Int := 1
  overhang_5 : FragmentEnd := bluntEnd
  overhang_3 : FragmentEnd := bluntEnd
  sequence : List Char := []
  features : List Feature := []
deriving DecidableEq, Repr

instance : Inhabited Fragment := ⟨{}⟩

/-- `SequenceRecord`: the fields the embedded engines read
(`sequence`, `circular`, `name`). -/
structure SequenceRecord where
  id : String := ""
  name : String := ""
  sequence : List Char := []
  length : Nat := 0
  circular : Bool := false
  features : List Feature := []
deriving DecidableEq, Repr

/-! ## `tools_pool/simulate_restriction_digestion.py` -/

namespace Digestion
open PrimerPioneer

/-- The module's `_RC` translate table: A↔T, C↔G, N↔N (upper and lower
case); any other character is left unchanged by `str.translate`. -/
def rcChar (c : Char) : Char :=
  if c = 'A' then 'T' else if c = 'C' then 'G'
  else if c = 'G' then 'C' else if c = 'T' then 'A'
  else if c = 'N' then 'N'
  else if c = 'a' then 't' else if c = 'c' then 'g'
  else if c = 'g' then 'c' else if c = 't' then 'a'
  else if c = 'n' then 'n'
  else c

/-- `_revcomp(s)`: `s.translate(_RC)[::-1]`. -/
def revcomp (s : List Char) : List Char := (s.map rcChar).reverse

/-- `EnzymeSpec`: `{name, site, top_cut, bottom_cut}`. -/
structure EnzymeSpec where
  name : String
  site : List Char
  top_cut : Nat
  bottom_cut : Nat
deriving DecidableEq, Repr

/-- `DigestResult`: `{enzymes, cuts, fragments, info}`. -/
structure DigestResult where
  enzymes : List String
  cuts : List Nat
  fragments : List Fragment
  info : List String
deriving DecidableEq, Repr

/-- `_calc_overhang(site, top_cut, bottom_cut)` (lines 42-56): end type and
the overhang segment `site[top_cut:bottom_cut]` resp.
`site[bottom_cut:top_cut]`. -/
def calc_overhang (site : List Char) (tcut bcut : Nat) : EndType × List Char :=
  if tcut = bcut then (EndType.blunt, [])
  else if tcut < bcut then (EndType.fiveOverhang, (site.drop tcut).take (bcut - tcut))
  else (EndType.threeOverhang, (site.drop bcut).take (tcut - bcut))

/-- `_cut_to_boundary(start0, top_cut, L)`: `(start0 + top_cut - 1 + L) % L`
on Python ints; the argument is an `Int` because reverse-strand wrap-around
hits pass a (possibly negative) mapped start.  Python's `%` on a positive
modulus is `Int.emod`, whose result is non-negative, hence `toNat`. -/
def cut_to_boundary (start0 : Int) (tcut : Nat) (L : Nat) : Nat :=
  ((start0 + (tcut : Int) - 1 + (L : Int)) % (L : Int)).toNat

/-- `_apply_rev_orientation(m_start_rc, site_len, L)`: `L - (m_start + site_len)`
(Python int, may be negative for wrap-around matches). -/
def apply_rev_orientation (mStart siteLen L : Nat) : Int :=
  (L : Int) - ((mStart : Int) + (siteLen : Int))

/-- `_frag_seq(seq, a0, b0, circ)` (lines 73-78): the fragment payload, the
closed 0-based interval `a0..b0`, wrapping across the origin when `circ` and
`a0 > b0`. -/
def frag_seq (s : List Char) (a0 b0 : Nat) (circ : Bool) : List Char :=
  if ¬circ ∨ a0 ≤ b0 then (s.drop a0).take (b0 + 1 - a0)
  else s.drop a0 ++ s.take (b0 + 1)

/-- `_end_objects(kind, seg, ...)` (lines 80-98): the (left fragment 3' end,
right fragment 5' end) pair of a cut.  The Python `for_left_right` argument
always repeats `kind`, so it is dropped here. -/
def end_objects (kind : EndType) (seg : List Char) : FragmentEnd × FragmentEnd :=
  match kind with
  | EndType.blunt => (bluntEnd, bluntEnd)
  | EndType.fiveOverhang =>
      (⟨EndType.fiveOverhang, revcomp seg, seg.length⟩,
       ⟨EndType.fiveOverhang, seg, seg.length⟩)
  | EndType.threeOverhang =>
      (⟨EndType.threeOverhang, seg, seg.length⟩,
       ⟨EndType.threeOverhang, revcomp seg, seg.length⟩)

/-- The fixed `COMMON_ENZYMES` table. -/
def COMMON_ENZYMES : List EnzymeSpec :=
  [ ⟨"EcoRI",   "GAATTC".toList,   1, 5⟩,
    ⟨"BamHI",   "GGATCC".toList,   1, 5⟩,
    ⟨"BglII",   "AGATCT".toList,   1, 5⟩,
    ⟨"HindIII", "AAGCTT".toList,   1, 5⟩,
    ⟨"KpnI",    "GGTACC".toList,   5, 1⟩,
    ⟨"NcoI",    "CCATGG".toList,   1, 5⟩,
    ⟨"NdeI",    "CATATG".toList,   2, 4⟩,
    ⟨"NheI",    "GCTAGC".toList,   1, 5⟩,
    ⟨"NotI",    "GCGGCCGC".toList, 2, 6⟩,
    ⟨"PacI",    "TTAATTAA".toList, 5, 3⟩,
    ⟨"PstI",    "CTGCAG".toList,   5, 1⟩,
    ⟨"SacI",    "GAGCTC".toList,   1, 5⟩,
    ⟨"SalI",    "GTCGAC".toList,   1, 5⟩,
    ⟨"SmaI",    "CCCGGG".toList,   3, 3⟩,
    ⟨"XbaI",    "TCTAGA".toList,   1, 5⟩,
    ⟨"XhoI",    "CTCGAG".toList,   1, 5⟩,
    ⟨"AflII",   "CTTAAG".toList,   1, 5⟩ ]

/-- The mutable scan state of the main enzyme loop: `all_cuts_borders`,
`all_left3_end`, `all_right5_end` (dicts keyed by boundary; modelled as
most-recent-first association lists, so prepending is Python's overwriting
assignment), and `all_info_messages`. -/
structure ScanState where
  borders : List Nat
  left3 : List (Nat × FragmentEnd)
  right5 : List (Nat × FragmentEnd)
  infos : List String
deriving Repr

/-- Dict lookup: the most recent binding of `b`, if any. -/
def mapFind (m : List (Nat × FragmentEnd)) (b : Nat) : Option FragmentEnd :=
  (m.find? (fun p => p.1 == b)).map (fun p => p.2)

/-- `if msg not in all_info_messages: all_info_messages.append(msg)`. -/
def addInfo (st : ScanState) (m : String) : ScanState :=
  if m ∈ st.infos then st else { st with infos := st.infos ++ [m] }

/-- Register one cut: append its boundary and (over)write both end dicts. -/
def addCut (st : ScanState) (b : Nat) (l3 r5 : FragmentEnd) : ScanState :=
  { st with
    borders := st.borders ++ [b]
    left3 := (b, l3) :: st.left3
    right5 := (b, r5) :: st.right5 }

/-- The advisory message of the near-end efficiency check (the source's
`desgining` typo included). -/
def flankMsg (name : String) (pos1 : Nat) (rev : Bool) : String :=
  "Site for " ++ name ++ " at " ++ toString pos1 ++
    (if rev then " (reverse)" else "") ++
    " is too close to an end for efficient cutting. Please consider additional flanking bases when desgining primers."

/-- Forward-strand scan of one enzyme (lines 178-192): for every
non-overlapping occurrence of `site`, near-end advisory on linear records,
then `_calc_overhang`/`_cut_to_boundary`/`_end_objects`. -/
def scanForward (s : List Char) (L : Nat) (circular : Bool)
    (name : String) (site : List Char) (tcut bcut : Nat)
    (st : ScanState) : ScanState :=
  (findIter site s).foldl
    (fun st p =>
      let st :=
        if ¬circular ∧ (Int.ofNat p < 6 ∨ (L : Int) - (Int.ofNat p + site.length) < 6) then
          addInfo st (flankMsg name (p + 1) false)
        else st
      let ks := calc_overhang site tcut bcut
      let b := cut_to_boundary (Int.ofNat p) tcut L
      let ends := end_objects ks.1 ks.2
      addCut st b ends.1 ends.2)
    st

/-- Reverse-strand scan (lines 194-211): scan `_revcomp(sequence)`, map each
hit back with `_apply_rev_orientation`, and use the mirrored cut offsets
`top_cut' = mlen - bottom_cut`, `bottom_cut' = mlen - top_cut`. -/
def scanReverse (s : List Char) (L : Nat) (circular : Bool)
    (name : String) (site : List Char) (tcut bcut : Nat)
    (st : ScanState) : ScanState :=
  let mlen := site.length
  let rc := revcomp s
  (findIter site rc).foldl
    (fun st m =>
      let start0 := apply_rev_orientation m mlen L
      let st :=
        if ¬circular ∧ (start0 < 6 ∨ (L : Int) - (start0 + mlen) < 6) then
          addInfo st (flankMsg (name) ((start0 + 1).toNat) true)
        else st
      let tcutP := mlen - bcut
      let bcutP := mlen - tcut
      let ks := calc_overhang site tcutP bcutP
      let b := cut_to_boundary start0 tcutP L
      let ends := end_objects ks.1 ks.2
      addCut st b ends.1 ends.2)
    st

/-- Circular wrap-around scan, forward window (lines 213-224): scan
`sequence + sequence[:mlen-1]`, keep only hits starting in `[L-(mlen-1), L)`,
and only register boundaries not already present in `all_left3_end`. -/
def scanWrapForward (s : List Char) (L : Nat)
    (site : List Char) (tcut bcut : Nat)
    (st : ScanState) : ScanState :=
  let mlen := site.length
  let ext := s ++ s.take (mlen - 1)
  (findIter site ext).foldl
    (fun st s0 =>
      if Int.ofNat s0 < (L : Int) - ((mlen : Int) - 1) ∨ L ≤ s0 then st
      else
        let ks := calc_overhang site tcut bcut
        let b := cut_to_boundary (Int.ofNat (s0 % L)) tcut L
        match mapFind st.left3 b with
        | some _ => st
        | none =>
            let ends := end_objects ks.1 ks.2
            addCut st b ends.1 ends.2)
    st

/-- Circular wrap-around scan, reverse window (lines 226-238). -/
def scanWrapReverse (s : List Char) (L : Nat)
    (site : List Char) (tcut bcut : Nat)
    (st : ScanState) : ScanState :=
  let mlen := site.length
  let rc := revcomp s
  let extRc := rc ++ rc.take (mlen - 1)
  (findIter site extRc).foldl
    (fun st s0 =>
      if Int.ofNat s0 < (L : Int) - ((mlen : Int) - 1) ∨ L ≤ s0 then st
      else
        let start0 := apply_rev_orientation s0 mlen L
        let tcutP := mlen - bcut
        let bcutP := mlen - tcut
        let ks := calc_overhang site tcutP bcutP
        let b := cut_to_boundary (start0 % (L : Int)) tcutP L
        match mapFind st.left3 b with
        | some _ => st
        | none =>
            let ends := end_objects ks.1 ks.2
            addCut st b ends.1 ends.2)
    st

/-- The characters allowed in a recognition site
(the `re.search(r"[^ACGTN]", site)` validation). -/
def siteAlphabet : List Char := ['A', 'C', 'G', 'T', 'N']

/-- One iteration of the `for enz in enzymes` loop: the per-enzyme
validations (`ValueError`s) followed by the four scan phases. -/
def scanEnzyme (s : List Char) (L : Nat) (circular : Bool)
    (st : ScanState) (enz : EnzymeSpec) : Except String ScanState :=
  let site := upperL enz.site
  if enz.name = "" ∨ site = [] then
    .error "EnzymeSpec is missing name or site"
  else if ¬(site.all (fun c => c ∈ siteAlphabet)) then
    .error ("Recognition site can only contain A/C/G/T/N: " ++ enz.name)
  else if ¬(enz.top_cut ≤ site.length ∧ enz.bottom_cut ≤ site.length) then
    .error (enz.name ++ ": top_cut/bottom_cut must be between 0 and " ++ toString site.length)
  else
    let st := scanForward s L circular enz.name site enz.top_cut enz.bottom_cut st
    let st := scanReverse s L circular enz.name site enz.top_cut enz.bottom_cut st
    if circular ∧ 1 < site.length then
      let st := scanWrapForward s L site enz.top_cut enz.bottom_cut st
      .ok (scanWrapReverse s L site enz.top_cut enz.bottom_cut st)
    else .ok st

/-- `sorted(set(all_cuts_borders))`: the strictly ascending list of the
distinct boundaries. -/
def sortedCuts (borders : List Nat) : List Nat :=
  borders.dedup.insertionSort (· ≤ ·)

/-- One circular fragment, from the bounding cuts `(b_left, b_right)`
(lines 253-264). -/
def circFragment (s : List Char) (L : Nat)
    (left3 right5 : List (Nat × FragmentEnd)) (bl br : Nat) : Fragment :=
  let a0 := (bl + 1) % L
  let b0 := br % L
  let len := if a0 ≤ b0 then b0 - a0 + 1 else (L - a0) + (b0 + 1)
  { id := ""
    start := a0 + 1
    stop := b0 + 1
    length := len
    strand := 1
    overhang_5 := (mapFind right5 bl).getD bluntEnd
    overhang_3 := (mapFind left3 br).getD bluntEnd
    sequence := frag_seq s a0 b0 true }

/-- The circular fragment walk (lines 252-264): consecutive boundary pairs,
the last wrapping to the first (`cuts_sorted[(i+1) % n]`).  The Python
`n == 0` branch is unreachable (the caller returns early on an empty
boundary pool), so it does not appear here. -/
def circularFragments (s : List Char) (L : Nat)
    (left3 right5 : List (Nat × FragmentEnd)) (cs : List Nat) : List Fragment :=
  (cs.zip (cs.rotate 1)).map (fun p => circFragment s L left3 right5 p.1 p.2)

/-- One linear fragment from the consecutive walk points `(left_b, right_b)`
(lines 266-282); `none` embeds the `if length <= 0: continue` skip. -/
def linFragment (s : List Char) (L : Nat)
    (left3 right5 : List (Nat × FragmentEnd)) (lb rb : Int) : Option Fragment :=
  let a0 := lb + 1
  let b0 := rb
  let len := b0 - a0 + 1
  if len ≤ 0 then none
  else some
    { id := ""
      start := (a0 + 1).toNat
      stop := (b0 + 1).toNat
      length := len.toNat
      strand := 1
      overhang_5 := if lb = -1 then bluntEnd else (mapFind right5 lb.toNat).getD bluntEnd
      overhang_3 :=
        if rb = (L : Int) - 1 ∧ mapFind left3 rb.toNat = none then bluntEnd
        else (mapFind left3 rb.toNat).getD bluntEnd
      sequence := frag_seq s a0.toNat b0.toNat false }

/-- The linear fragment walk (lines 266-282): drop boundaries past `L-2`,
then walk `[-1] + cuts_lin + [L-1]` pairwise. -/
def linearFragments (s : List Char) (L : Nat)
    (left3 right5 : List (Nat × FragmentEnd)) (cs : List Nat) : List Fragment :=
  let cutsLin := cs.filter (fun b => Int.ofNat b ≤ (L : Int) - 2)
  let points : List Int := -1 :: (cutsLin.map Int.ofNat ++ [(L : Int) - 1])
  (points.zip points.tail).filterMap (fun p => linFragment s L left3 right5 p.1 p.2)

/-- `cuts_1b`: 1-based cut labels, `b+1` except the boundary before the
origin which is reported as `L`. -/
def cuts1b (L : Nat) (cs : List Nat) : List Nat :=
  cs.map (fun b => if b < L - 1 then b + 1 else L)

/-- The fragment-assembly tail of `simulate_restriction_digestion`
(lines 237-282), reached when at least one boundary was pooled. -/
def assembleResult (enzymeNames : List String) (s : List Char) (L : Nat)
    (circular : Bool) (st : ScanState) : DigestResult :=
  let cs := sortedCuts st.borders
  { enzymes := enzymeNames
    cuts := cuts1b L cs
    fragments :=
      if circular then circularFragments s L st.left3 st.right5 cs
      else linearFragments s L st.left3 st.right5 cs
    info := st.infos }

/-- `enzyme_map` lookup loop (lines 142-148): resolve every requested name
against `COMMON_ENZYMES`, raising on the first unknown name. -/
def lookupEnzymes : List String → Except String (List EnzymeSpec)
  | [] => .ok []
  | n :: rest =>
    match COMMON_ENZYMES.find? (fun e => e.name == n) with
    | none => .error ("Enzyme '" ++ n ++ "' not found in COMMON_ENZYMES list.")
    | some e => (lookupEnzymes rest).map (fun es => e :: es)

/-- `simulate_restriction_digestion(json_path, enzyme_names)` (lines 122-296),
with the record passed as a value in place of the JSON file.  `ValueError`s
are `Except.error`; the optional `output_json_path` write is I/O and not part
of the embedded core. -/
def simulate_restriction_digestion (rec : SequenceRecord)
    (enzyme_names : List String) : Except String DigestResult :=
  let s := upperL rec.sequence
  let L := s.length
  let circular := rec.circular
  match lookupEnzymes enzyme_names with
  | .error e => .error e
  | .ok enzymes =>
    if L = 0 then .ok ⟨enzyme_names, [], [], []⟩
    else
      match enzymes.foldlM (scanEnzyme s L circular) ⟨[], [], [], []⟩ with
      | .error e => .error e
      | .ok st =>
        if st.borders = [] then .ok ⟨enzyme_names, [], [], st.infos⟩
        else .ok (assembleResult enzyme_names s L circular st)

end Digestion

/-! ## `multi_agent_system/tools_pool/v0/tools_pool/simulate_pcr.py` -/

namespace Pcr
open PrimerPioneer

/-- The module's `_RC_MAP` translate table (same table as the digestion
module's `_RC`). -/
def revcomp (s : List Char) : List Char := Digestion.revcomp s

/-- Python's `s[-k:]`: for `k > 0` the last `min k |s|` characters; for
`k = 0` the whole string (`s[-0:]` is `s[0:]`). -/
def takeLastPy (k : Nat) (s : List Char) : List Char :=
  if k = 0 then s else s.drop (s.length - k)

/-- The result dictionary of `simulate_pcr`: `{"amplicons": ..., "message": ...}`. -/
structure PcrResult where
  amplicons : List Fragment
  message : String
deriving DecidableEq, Repr

/-- "did not bind" message (line 84; without the `output_path` suffix, which
belongs to the file-writing layer). -/
def msgNoBind : String :=
  "PCR simulation completed. No amplicon produced because one or both primers did not bind."

/-- Invalid geometry on a linear template (line 112). -/
def msgBadGeometry : String :=
  "No PCR product formed due to primer binding issues on linear template."

/-- Success message (line 140). -/
def msgSuccess : String :=
  "PCR simulation completed successfully. If you add restriction sites on your primers, the next movement should be simulate_restriction_digestion."

/-- `simulate_pcr(json_path, forward, reverse, min_anneal_len)` (lines 22-148),
with the template record passed as a value.  The debugging `print`s and the
`output_path` branch are I/O and are not part of the embedded core. -/
def simulate_pcr (template : SequenceRecord) (forward rev : List Char)
    (min_anneal_len : Nat) : Except String PcrResult :=
  let template_seq := upperL template.sequence
  let is_circular := template.circular
  let _L := template_seq.length
  if template_seq = [] ∨ forward = [] ∨ rev = [] then
    .error "Template and primer sequences must not be empty."
  else
    let forward_primer := upperL forward
    let reverse_primer := upperL rev
    if forward_primer.length < min_anneal_len ∨ reverse_primer.length < min_anneal_len then
      .error ("Primers must be at least " ++ toString min_anneal_len ++ " bases long.")
    else
      let forward_anneal := takeLastPy min_anneal_len forward_primer
      let reverse_anneal_rc := revcomp (takeLastPy min_anneal_len reverse_primer)
      match findSub forward_anneal template_seq, findSub reverse_anneal_rc template_seq with
      | none, _ => .ok ⟨[], msgNoBind⟩
      | _, none => .ok ⟨[], msgNoBind⟩
      | some fwd_pos, some rev_pos =>
        let fwd_template_start := fwd_pos
        let rev_template_end := rev_pos + reverse_anneal_rc.length
        let start_coord := fwd_template_start + 1
        let end_coord := rev_template_end
        if fwd_template_start < rev_template_end then
          let middle_template :=
            (template_seq.drop (fwd_template_start + min_anneal_len)).take
              (rev_pos - (fwd_template_start + min_anneal_len))
          let amplicon_seq := forward_primer ++ middle_template ++ revcomp reverse_primer
          .ok ⟨[{ id := ""
                  start := start_coord
                  stop := end_coord
                  length := amplicon_seq.length
                  strand := 1
                  sequence := amplicon_seq
                  overhang_5 := bluntEnd
                  overhang_3 := bluntEnd }], msgSuccess⟩
        else if is_circular then
          let middle_template :=
            template_seq.drop (fwd_pos + min_anneal_len) ++ template_seq.take rev_pos
          let amplicon_seq := forward_primer ++ middle_template ++ revcomp reverse_primer
          .ok ⟨[{ id := ""
                  start := start_coord
                  stop := end_coord
                  length := amplicon_seq.length
                  strand := 1
                  sequence := amplicon_seq
                  overhang_5 := bluntEnd
                  overhang_3 := bluntEnd }], msgSuccess⟩
        else .ok ⟨[], msgBadGeometry⟩

end Pcr

/-! ## `tools_pool/simulate_ligation.py` -/

namespace Ligation
open PrimerPioneer

/-- `itertools.combinations(l, k)`: the `k`-element sublists of `l` in
lexicographic order of positions. -/
def combinations : Nat → List α → List (List α)
  | 0, _ => [[]]
  | _ + 1, [] => []
  | k + 1, x :: xs => (combinations k xs).map (fun c => x :: c) ++ combinations (k + 1) xs

/-- All ways to pick one element of a list, returning it with the remaining
elements in order (worker for `permutationsPy`). -/
def selects : List α → List (α × List α)
  | [] => []
  | x :: xs => (x, xs) :: (selects xs).map (fun p => (p.1, x :: p.2))

/-- Fuel-indexed worker for `permutationsPy`; the fuel tracks the list
length exactly. -/
def permutationsAux : Nat → List α → List (List α)
  | 0, _ => [[]]
  | n + 1, l => (selects l).flatMap (fun p => (permutationsAux n p.2).map (fun q => p.1 :: q))

/-- `itertools.permutations(l)`: all permutations in lexicographic order of
positions. -/
def permutationsPy (l : List α) : List (List α) :=
  permutationsAux l.length l

/-- The complement used by `_normalize_overhang`/`_are_compatible_ends`:
A↔T, C↔G, every other character kept (`complement.get(b, b)`). -/
def ligComplement (c : Char) : Char :=
  if c = 'A' then 'T' else if c = 'T' then 'A'
  else if c = 'C' then 'G' else if c = 'G' then 'C'
  else c

/-- `''.join(complement.get(b, b) for b in reversed(seq))`. -/
def ligRevcomp (s : List Char) : List Char := s.reverse.map ligComplement

/-- `_normalize_overhang(end)` (lines 137-159): normalize to the 5'→3'
single-stranded sequence seen along the joining direction.  The Python
"unknown kind" fallback is unreachable for the closed `EndType`. -/
def normalize_overhang (e : FragmentEnd) : EndType × List Char :=
  let seq := upperL e.seq
  if e.kind = EndType.blunt ∨ seq = [] then (EndType.blunt, [])
  else match e.kind with
    | EndType.fiveOverhang => (EndType.fiveOverhang, seq)
    | EndType.threeOverhang => (EndType.threeOverhang, ligRevcomp seq)
    | EndType.blunt => (EndType.blunt, [])

/-- `_are_compatible_ends(end1, end2)` (lines 162-181): blunt/blunt, or same
polarity, equal length*, and `seq1 == revcomp(seq2)` on the normalized
sequences. -/
def are_compatible_ends (e1 e2 : FragmentEnd) : Bool :=
  if e1.kind = EndType.blunt ∧ e2.kind = EndType.blunt then true
  else
    let n1 := normalize_overhang e1
    let n2 := normalize_overhang e2
    if n1.1 = EndType.blunt ∨ n2.1 = EndType.blunt ∨ n1.1 ≠ n2.1 then false
    else if n1.2.length ≠ n2.2.length then false
    else n1.2 == ligRevcomp n2.2

/-- `_ligation_info`: fragment count, order (original indices), names. -/
structure LigationInfo where
  fragment_count : Nat
  fragment_order : List Nat
  fragment_names : List String
deriving DecidableEq, Repr

/-- A circular ligation product: the dictionary `_build_circular_product`
returns, plus the `_ligation_info` the search attaches. -/
structure Product where
  id : String := ""
  name : String
  sequence : List Char
  length : Nat
  circular : Bool
  features : List Feature
  info : LigationInfo := ⟨0, [], []⟩
deriving DecidableEq, Repr

/-- Python `s[:-k]` for `k ≥ 0`: drop the last `k` characters. -/
def dropLastPy (s : List Char) (k : Nat) : List Char := s.take (s.length - k)

/-- The running state of `_build_circular_product`'s accumulation loop:
`full_sequence`, `current_offset`, `feature_offsets`. -/
structure BuildState where
  full : List Char
  current_offset : Int
  feature_offsets : List Int

/-- The `for i in range(1, len(fragments))` loop of
`_build_circular_product` (lines 193-217): append each next fragment,
trimming the junction overlap according to the previous fragment's
normalized 3' end. -/
def buildFold (prev : Fragment) (rest : List Fragment) (st : BuildState) : BuildState :=
  match rest with
  | [] => st
  | curr :: rest' =>
    let prev3 := prev.overhang_3
    let kindNorm := (normalize_overhang prev3).1
    let overlapLen := if prev3.kind ≠ EndType.blunt then prev3.seq.length else 0
    let st' :=
      match kindNorm with
      | EndType.fiveOverhang =>
          { full := st.full ++ curr.sequence.drop overlapLen
            current_offset := st.current_offset + curr.sequence.length - overlapLen
            feature_offsets := st.feature_offsets ++ [st.current_offset - overlapLen] }
      | EndType.threeOverhang =>
          let full1 := if 0 < overlapLen then dropLastPy st.full overlapLen else st.full
          let ofs1 : Int := if 0 < overlapLen then st.current_offset - overlapLen else st.current_offset
          { full := full1 ++ curr.sequence
            current_offset := ofs1 + curr.sequence.length
            feature_offsets := st.feature_offsets ++ [ofs1] }
      | EndType.blunt =>
          { full := st.full ++ curr.sequence
            current_offset := st.current_offset + curr.sequence.length
            feature_offsets := st.feature_offsets ++ [st.current_offset] }
    buildFold curr rest' st'

/-- `_build_circular_product(fragments, frag_names)` (lines 186-262).
The Python `except KeyError: return None` guard cannot fire on the total
`Fragment` structure, so the embedded builder is total. -/
def build_circular_product (fragments : List Fragment) (frag_names : List String) : Product :=
  let first := fragments.headD default
  let st0 : BuildState := ⟨first.sequence, first.sequence.length, [0]⟩
  let st := buildFold first fragments.tail st0
  let last := fragments.getLastD default
  let last3 := last.overhang_3
  let kindNormLast := (normalize_overhang last3).1
  let overlapLast := if last3.kind ≠ EndType.blunt then last3.seq.length else 0
  let full2 :=
    if 0 < overlapLast then
      match kindNormLast with
      | EndType.threeOverhang => dropLastPy st.full overlapLast
      | EndType.fiveOverhang => st.full.drop overlapLast
      | EndType.blunt => st.full
    else st.full
  let offsets2 :=
    if 0 < overlapLast ∧ kindNormLast = EndType.fiveOverhang then
      st.feature_offsets.map (fun o => o - (overlapLast : Int))
    else st.feature_offsets
  let adjusted :=
    (fragments.zip offsets2).flatMap (fun p =>
      p.1.features.map (fun ft => { ft with start := ft.start + p.2, stop := ft.stop + p.2 }))
  let nameParts := fragments.enum.map (fun p =>
    if p.2.name = "" then frag_names.getD p.1 "" else p.2.name)
  { id := ""
    name := "Circular-" ++ String.intercalate "-" nameParts
    sequence := full2
    length := full2.length
    circular := true
    features := adjusted
    info := ⟨0, [], []⟩ }

/-- `_try_circular_ligation_with_complementary_ends` (lines 104-132): check
the dephosphorylation veto and strict end compatibility at every cyclic
junction; on success build the circular product. -/
def try_circular_ligation (fragments : List Fragment) (frag_names : List String)
    (dephosphorylated_ends : List String) : Option Product :=
  if fragments.length = 0 then none
  else
    let ok := (List.range fragments.length).all (fun i =>
      let current := fragments.getD i default
      let nxt := fragments.getD ((i + 1) % fragments.length) default
      let currentName := frag_names.getD i ""
      let nextName := frag_names.getD ((i + 1) % fragments.length) ""
      let currentDephos := (currentName ++ "_3end") ∈ dephosphorylated_ends
      let nextDephos := (nextName ++ "_5end") ∈ dephosphorylated_ends
      if currentDephos ∧ nextDephos then false
      else are_compatible_ends current.overhang_3 nxt.overhang_5)
    if ok then some (build_circular_product fragments frag_names) else none

/-- One search attempt of the subset/permutation loop (lines 57-73): try the
index order `ord` (a permutation of a `k`-subset of fragment indices) and,
on success, attach `_ligation_info`. -/
def tryOrder (fragments : List Fragment) (dephos : List String)
    (k : Nat) (ord : List Nat) : Option Product :=
  let chosen := ord.map (fun i => fragments.getD i default)
  let names := ord.map (fun i => "frag" ++ toString i)
  (try_circular_ligation chosen names dephos).map (fun pr =>
    { pr with info :=
        ⟨k, ord, ord.map (fun i =>
          let f := fragments.getD i default
          if f.name = "" then "frag" ++ toString i else f.name)⟩ })

/-- The full exhaustive search (lines 54-77): every subset size, every
subset, every permutation, in Python iteration order; each fully compatible
permutation contributes one product. -/
def ligationSearch (fragments : List Fragment) (dephos : List String) : List Product :=
  (List.range' 1 fragments.length).flatMap (fun k =>
    (combinations k (List.range fragments.length)).flatMap (fun idxs =>
      (permutationsPy idxs).filterMap (fun ord => tryOrder fragments dephos k ord)))

/-- The result dictionary of `simulate_ligation`. -/
structure LigationResult where
  products : List Product
  message : String
deriving DecidableEq, Repr

/-- The per-product log message (line 73). -/
def productMsg (pr : Product) : String :=
  "成功形成环状产物: " ++ pr.name ++ " (使用" ++ toString pr.info.fragment_count ++ "个片段)"

/-- `simulate_ligation(fragments_json_paths, ...)` (lines 9-102), with the
already-loaded fragments passed as values (the JSON loading/flattening and
the `output_path` write are I/O outside the embedded core).  Products are
stably sorted ascending by `_ligation_info.fragment_count`
(`list.sort` with a key is a stable sort). -/
def simulate_ligation (fragments : List Fragment)
    (dephosphorylated_ends : List String) : LigationResult :=
  let found := ligationSearch fragments dephosphorylated_ends
  let messages := found.map productMsg
  let sorted := found.insertionSort (fun a b => a.info.fragment_count ≤ b.info.fragment_count)
  { products := sorted
    message := if messages = [] then "未产生环状连接产物" else String.intercalate "; " messages }

end Ligation

/-! ## Claim-statement definitions

Definitions used only to *state* the claims: the spec-side compatibility
predicate of C4 (written from the spec's §4.4 wording, to be compared with
the source's `_are_compatible_ends`), the annealing core of C6, the span
measure of C10, and the cyclic-compatibility shorthand of C2. -/

/-- Spec-side normalization (spec §4.4 step 1): "every `FragmentEnd` is
normalized to the single-stranded 5'→3' sequence observed along the joining
direction: a 5'-overhang's stored sequence is already in that orientation; a
3'-overhang's stored sequence must be reverse-complemented to compare in the
same frame."  Stored sequences are canonically uppercase (§3). -/
def specNormSeq (e : FragmentEnd) : List Char :=
  match e.kind with
  | EndType.blunt => []
  | EndType.fiveOverhang => upperL e.seq
  | EndType.threeOverhang => Ligation.ligRevcomp (upperL e.seq)

/-- Spec-side compatibility rule (spec §4.4 step 2): "two ends are
compatible iff both are blunt, or both are the same overhang polarity with
equal length and the normalized sequences are exact reverse complements of
each other." -/
def specCompatible (e1 e2 : FragmentEnd) : Prop :=
  (e1.kind = EndType.blunt ∧ e2.kind = EndType.blunt) ∨
  (e1.kind ≠ EndType.blunt ∧ e2.kind ≠ EndType.blunt ∧ e1.kind = e2.kind ∧
    e1.seq.length = e2.seq.length ∧
    specNormSeq e1 = Ligation.ligRevcomp (specNormSeq e2))

/-- The 3'-most `k` bases of a primer (the annealing core of C6). -/
def annealCore (s : List Char) (k : Nat) : List Char := s.drop (s.length - k)

/-- The span from a fragment's 1-based `start` to its 1-based `stop`
coordinate on a record of length `L`, wrapping across the origin when
`start > stop` (only circular fragments wrap). -/
def coordSpan (L start stop : Nat) : Nat :=
  if start ≤ stop then stop + 1 - start else (L + 1 - start) + stop

/-- The EcoRI recognition site. -/
def ecoSite : List Char := "GAATTC".toList

/-- Cyclic three-fragment compatibility: order `a, b, c` read cyclically is
compatible at all three junctions (C2's "cyclic adjacency ordering"). -/
def cyc3 (a b c : Fragment) : Bool :=
  Ligation.are_compatible_ends a.overhang_3 b.overhang_5 &&
  Ligation.are_compatible_ends b.overhang_3 c.overhang_5 &&
  Ligation.are_compatible_ends c.overhang_3 a.overhang_5

/-! ## Concrete inputs used by counterexamples and witnesses -/

/-- A 5'-overhang end object. -/
def mkOv5 (s : String) : FragmentEnd := ⟨EndType.fiveOverhang, s.toList, s.toList.length⟩

/-- C5/C8 data: a fragment with a blunt 5' end and an `AATT` 5'-overhang 3' end. -/
def exA : Fragment :=
  { name := "A", sequence := "CCCCAATT".toList, overhang_5 := bluntEnd, overhang_3 := mkOv5 "AATT" }

/-- C5 data: a fragment with an `AATT` 5'-overhang 5' end and a blunt 3' end. -/
def exB : Fragment :=
  { name := "B", sequence := "AATTGGGG".toList, overhang_5 := mkOv5 "AATT", overhang_3 := bluntEnd }

/-- C2 data: three fragments whose only fully compatible cyclic ordering is
`exF0 → exF1 → exF2` (overhangs `AA/TT`, `CC/GG`, `AC/GT`). -/
def exF0 : Fragment :=
  { name := "f0", sequence := "GTACAA".toList, overhang_5 := mkOv5 "GT", overhang_3 := mkOv5 "AA" }

/-- C2 data, second fragment. -/
def exF1 : Fragment :=
  { name := "f1", sequence := "TTAACC".toList, overhang_5 := mkOv5 "TT", overhang_3 := mkOv5 "CC" }

/-- C2 data, third fragment. -/
def exF2 : Fragment :=
  { name := "f2", sequence := "GGCTAC".toList, overhang_5 := mkOv5 "GG", overhang_3 := mkOv5 "AC" }

/-- C7 data: a single fragment that cannot self-circularize (3' sticky end
against its own blunt 5' end). -/
def exW : Fragment :=
  { name := "w", sequence := "TTTTAATT".toList, overhang_5 := bluntEnd, overhang_3 := mkOv5 "AATT" }

/-- The `AATT` 5'-overhang end object of C5. -/
def aattEnd : FragmentEnd := ⟨EndType.fiveOverhang, "AATT".toList, 4⟩

/-- C10 witness data: a linear record with one EcoRI site. -/
def recW : SequenceRecord := { sequence := "AAAAAAGAATTCAAAAAA".toList, circular := false }

/-- C10 witness data: the digestion result of `recW` with EcoRI. -/
def resW : Digestion.DigestResult :=
  (Digestion.simulate_restriction_digestion recW ["EcoRI"]).toOption.getD ⟨[], [], [], []⟩

/-! ## Theorems -/

/-! ### C9: `reverse_complement` involution -/

/-- C9, counterexample: `reverse_complement` is not an involution on every
input string: the character `'X'` is outside the complement table, maps to
`'N'`, and `revcomp(revcomp("X")) = "N" ≠ "X"`. -/
theorem C9_counterexample :
    SequenceTools.reverse_complement (SequenceTools.reverse_complement ['X']) = ['N'] ∧
    SequenceTools.reverse_complement (SequenceTools.reverse_complement ['X']) ≠ ['X'] := by
  decide

/-- C9, amended: `reverse_complement` maps each character through the fixed
complement table (A↔T, C↔G, N↔N, R↔Y, S↔S, W↔W, K↔M, B↔V, D↔H) and unknown
characters to N; it is an involution on every string drawn from the table's
alphabet — in particular on all sequences over {A,C,G,T,N}. -/
theorem C9_amended (s : List Char) (h : ∀ c ∈ s, c ∈ SequenceTools.tableAlphabet) :
    SequenceTools.reverse_complement (SequenceTools.reverse_complement s) = s := by
  unfold SequenceTools.reverse_complement upperL
  simp only [List.map_map, List.map_reverse, List.reverse_reverse]
  conv_rhs => rw [← List.map_id s]
  refine List.map_congr_left (fun c hc => ?_)
  have hmem := h c hc
  fin_cases hmem <;> rfl

/-- C9, witness: the amended involution evaluated on the concrete sequence
`"ACGTN"`. -/
theorem C9_witness :
    (∀ c ∈ "ACGTN".toList, c ∈ SequenceTools.tableAlphabet) ∧
    SequenceTools.reverse_complement (SequenceTools.reverse_complement "ACGTN".toList) =
      "ACGTN".toList :=
  ⟨by decide, C9_amended "ACGTN".toList (by decide)⟩

/-! ### C1: zero cuts -/

/-- C1: with no enzyme site anywhere (zero cut boundaries pooled),
`simulate_restriction_digestion` returns an **empty** fragment list — for a
circular and for a linear non-empty record alike — instead of the
single whole-record fragment that the spec (and the function's own dead
`n == 0` branch, commented "No cuts, the whole plasmid is one fragment")
describes: the early return on an empty boundary pool precedes that branch. -/
theorem C1_code_result :
    Digestion.simulate_restriction_digestion
        { sequence := "ACGTACGT".toList, circular := true } ["EcoRI"] =
      .ok ⟨["EcoRI"], [], [], []⟩ ∧
    Digestion.simulate_restriction_digestion
        { sequence := "ACGTACGT".toList, circular := false } ["EcoRI"] =
      .ok ⟨["EcoRI"], [], [], []⟩ :=
  ⟨rfl, rfl⟩

/-! ### C8: empty required sequence -/

/-- C8, counterexample: `simulate_restriction_digestion` on a record with
empty sequence does **not** abort with a validation error: it returns a
normal, well-formed result with empty cuts and fragments. -/
theorem C8_counterexample :
    Digestion.simulate_restriction_digestion { sequence := [] } ["EcoRI"] =
      .ok ⟨["EcoRI"], [], [], []⟩ ∧
    ∀ e, Digestion.simulate_restriction_digestion { sequence := [] } ["EcoRI"] ≠
      .error e := by
  refine ⟨rfl, fun e h => ?_⟩
  exact Except.noConfusion h

/-- C8, amended: `simulate_pcr` on a template record with empty sequence
aborts with a validation error; `simulate_restriction_digestion` on a record
with empty sequence (and resolvable enzyme names) instead returns a normal
result with empty cuts and fragments. -/
theorem C8_amended (rec : SequenceRecord) (names : List String)
    (f r : List Char) (m : Nat)
    (hseq : rec.sequence = [])
    (hnames : ∀ n ∈ names, (Digestion.COMMON_ENZYMES.find? (fun e => e.name == n)).isSome) :
    (∃ msg, Pcr.simulate_pcr rec f r m = .error msg) ∧
    Digestion.simulate_restriction_digestion rec names = .ok ⟨names, [], [], []⟩ := by
  constructor
  · refine ⟨"Template and primer sequences must not be empty.", ?_⟩
    unfold Pcr.simulate_pcr
    rw [hseq]
    simp [upperL]
  · obtain ⟨es, hes⟩ : ∃ es, Digestion.lookupEnzymes names = .ok es := by
      clear hseq
      induction names with
      | nil => exact ⟨[], rfl⟩
      | cons n rest ih =>
        have hn := hnames n (by simp)
        obtain ⟨e, he⟩ := Option.isSome_iff_exists.mp hn
        obtain ⟨es, hes⟩ := ih (fun n' hn' => hnames n' (by simp [hn']))
        exact ⟨e :: es, by unfold Digestion.lookupEnzymes; rw [he, hes]; rfl⟩
    unfold Digestion.simulate_restriction_digestion
    rw [hseq, hes]
    simp [upperL]

/-- C8, witness: the amended claim evaluated on an empty-sequence record
with enzymes `["EcoRI"]` and 4-base primers. -/
theorem C8_witness :
    (∃ msg, Pcr.simulate_pcr { sequence := [] } "AAAA".toList "TTTT".toList 4 = .error msg) ∧
    Digestion.simulate_restriction_digestion { sequence := [] } ["EcoRI"] =
      .ok ⟨["EcoRI"], [], [], []⟩ :=
  C8_amended { sequence := [] } ["EcoRI"] "AAAA".toList "TTTT".toList 4 rfl (by decide)

/-! ### C2 and C5: ligation product multiplicity (counterexamples) -/

/-- C2, counterexample: for `exF0, exF1, exF2` exactly one cyclic adjacency
ordering of the three (up to rotation) is compatible at all three junctions,
yet `simulate_ligation` returns 3 products (one per rotation-equivalent
permutation of the valid cycle), not 1. -/
theorem C2_counterexample :
    (cyc3 exF0 exF1 exF2 = true ∧ cyc3 exF0 exF2 exF1 = false) ∧
    (Ligation.simulate_ligation [exF0, exF1, exF2] []).products.length = 3 ∧
    ¬ (Ligation.simulate_ligation [exF0, exF1, exF2] []).products.length = 1 ∧
    (Ligation.simulate_ligation [exF0, exF1, exF2] []).products.all
      (fun p => p.info.fragment_count == 3) = true := by
  decide

/-- C5, counterexample: two linear fragments joined by complementary 4-base
5'-overhangs `"AATT"` with the two remaining ends blunt: `simulate_ligation`
returns **two** circular products (the two rotations of the same cycle), not
exactly one; each has length `8 + 8 - 4 = 12`. -/
theorem C5_counterexample :
    (Ligation.simulate_ligation [exA, exB] []).products.length = 2 ∧
    ¬ (Ligation.simulate_ligation [exA, exB] []).products.length = 1 ∧
    (Ligation.simulate_ligation [exA, exB] []).products.all
      (fun p => p.length == 12 && p.circular) = true := by
  decide

/-! ### C4: end-compatibility rule -/

/-- C4: under the `FragmentEnd` invariant (kind blunt iff empty overhang),
the source's `_are_compatible_ends` returns `true` exactly when the spec's
rule holds: both ends blunt, or same overhang polarity, equal overhang
length, and normalized 5'→3' sequences that are exact reverse complements of
each other. -/
theorem C4_compat_iff (e1 e2 : FragmentEnd)
    (h1 : e1.kind = EndType.blunt ↔ e1.seq = [])
    (h2 : e2.kind = EndType.blunt ↔ e2.seq = []) :
    Ligation.are_compatible_ends e1 e2 = true ↔ specCompatible e1 e2 := by
  obtain ⟨k1, s1, l1⟩ := e1
  obtain ⟨k2, s2, l2⟩ := e2
  simp only at h1 h2
  cases k1 <;> cases k2 <;>
    simp_all [Ligation.are_compatible_ends, Ligation.normalize_overhang, specCompatible,
      specNormSeq, upperL, List.map_eq_nil_iff, Ligation.ligRevcomp]

/-- C4, witness: the compatibility equivalence evaluated on two concrete
`AATT` 5'-overhang ends (which satisfy the invariant). -/
theorem C4_witness :
    Ligation.are_compatible_ends (mkOv5 "AATT") (mkOv5 "AATT") = true ↔
      specCompatible (mkOv5 "AATT") (mkOv5 "AATT") :=
  C4_compat_iff (mkOv5 "AATT") (mkOv5 "AATT") (by decide) (by decide)

/-! ### C6 helpers -/

theorem findSub_nil (u : List Char) : findSub [] u = some 0 := by
  unfold findSub
  rw [List.range_succ_eq_map]
  simp [matchesAt]

theorem findSub_matches {pat u : List Char} {i : Nat}
    (h : findSub pat u = some i) : matchesAt pat u i = true :=
  List.find?_some h

theorem matchesAt_seg {pat u : List Char} {i : Nat}
    (h : matchesAt pat u i = true) : (u.drop i).take pat.length = pat := by
  simpa [matchesAt] using h

theorem matchesAt_u_ne_nil {pat u : List Char} {i : Nat}
    (h : matchesAt pat u i = true) (hpat : pat ≠ []) : u ≠ [] := by
  intro hu
  subst hu
  simp [matchesAt] at h
  exact hpat h

theorem annealCore_length {s : List Char} {k : Nat} (h : k ≤ s.length) :
    (annealCore s k).length = k := by
  simp [annealCore]
  omega

theorem takeLastPy_pos {k : Nat} (s : List Char) (h : 0 < k) :
    Pcr.takeLastPy k s = annealCore s k := by
  unfold Pcr.takeLastPy annealCore
  rw [if_neg (by omega)]

theorem pcr_revcomp_length (s : List Char) : (Pcr.revcomp s).length = s.length := by
  simp [Pcr.revcomp, Digestion.revcomp]

/-- C6: when both annealing cores bind (first occurrences) with the forward
core's start strictly before the reverse core's end, `simulate_pcr` returns
exactly one amplicon: full forward primer, then the template region strictly
between the cores, then the reverse complement of the full reverse primer,
of total length `len(forward) + gap + len(reverse)`. -/
theorem C6_pcr_product (template : SequenceRecord) (f r : List Char) (mal p q : Nat)
    (hmalT : mal ≤ template.sequence.length)
    (hf : mal ≤ f.length) (hr : mal ≤ r.length)
    (hfwd : findSub (annealCore (upperL f) mal) (upperL template.sequence) = some p)
    (hrev : findSub (Pcr.revcomp (annealCore (upperL r) mal)) (upperL template.sequence) = some q)
    (hgeom : p < q + mal) :
    ∃ res, Pcr.simulate_pcr template f r mal = .ok res ∧
      res.amplicons.length = 1 ∧
      (res.amplicons.headD default).sequence =
        upperL f ++ ((upperL template.sequence).drop (p + mal)).take (q - (p + mal)) ++
          Pcr.revcomp (upperL r) ∧
      (res.amplicons.headD default).length =
        f.length + (((upperL template.sequence).drop (p + mal)).take (q - (p + mal))).length +
          r.length := by
  rcases Nat.eq_zero_or_pos mal with hm0 | hmpos
  · subst hm0
    have hcore : annealCore (upperL r) 0 = [] := by simp [annealCore]
    rw [hcore, show Pcr.revcomp [] = [] from rfl, findSub_nil] at hrev
    cases hrev
    exfalso
    omega
  · have hflen : (upperL f).length = f.length := by simp [upperL]
    have hrlen : (upperL r).length = r.length := by simp [upperL]
    have hfne : f ≠ [] := by
      intro h
      rw [h] at hf
      simp at hf
      omega
    have hrne : r ≠ [] := by
      intro h
      rw [h] at hr
      simp at hr
      omega
    have hcorelen : (annealCore (upperL f) mal).length = mal :=
      annealCore_length (by omega)
    have hcorene : annealCore (upperL f) mal ≠ [] := by
      intro h
      rw [h] at hcorelen
      simp at hcorelen
      omega
    have htne : upperL template.sequence ≠ [] :=
      matchesAt_u_ne_nil (findSub_matches hfwd) hcorene
    have hrclen : (Pcr.revcomp (annealCore (upperL r) mal)).length = mal := by
      rw [pcr_revcomp_length]
      exact annealCore_length (by omega)
    unfold Pcr.simulate_pcr
    rw [if_neg (by push_neg; exact ⟨htne, hfne, hrne⟩)]
    rw [if_neg (by push_neg; constructor <;> omega)]
    rw [takeLastPy_pos _ hmpos, takeLastPy_pos _ hmpos]
    simp only [hfwd, hrev, hrclen]
    rw [if_pos hgeom]
    refine ⟨_, rfl, ?_, ?_, ?_⟩
    · rfl
    · rfl
    · simp only [List.headD_cons, List.length_append, pcr_revcomp_length, hflen, hrlen]

/-- C6, witness: the spec's §8 PCR example — template
`"AAAAA" + "GAATTCATGCATGCATGC" + "TTTTT"`, forward primer
`"GAATTCATGCATGC"`, reverse primer the reverse complement of the last 14
template bases, `min_anneal_len = 14` (cores bind at 5 and 14). -/
theorem C6_witness :
    ∃ res,
      Pcr.simulate_pcr { sequence := "AAAAAGAATTCATGCATGCATGCTTTTT".toList }
          "GAATTCATGCATGC".toList "AAAAAGCATGCATG".toList 14 = .ok res ∧
      res.amplicons.length = 1 ∧
      (res.amplicons.headD default).sequence =
        upperL "GAATTCATGCATGC".toList ++
          ((upperL "AAAAAGAATTCATGCATGCATGCTTTTT".toList).drop (5 + 14)).take (14 - (5 + 14)) ++
          Pcr.revcomp (upperL "AAAAAGCATGCATG".toList) ∧
      (res.amplicons.headD default).length =
        "GAATTCATGCATGC".toList.length +
          (((upperL "AAAAAGAATTCATGCATGCATGCTTTTT".toList).drop (5 + 14)).take
              (14 - (5 + 14))).length +
          "AAAAAGCATGCATG".toList.length :=
  C6_pcr_product { sequence := "AAAAAGAATTCATGCATGCATGCTTTTT".toList }
    "GAATTCATGCATGC".toList "AAAAAGCATGCATG".toList 14 5 14
    (by decide) (by decide) (by decide) (by decide) (by decide) (by decide)

/-- C7: "no result" outcomes are data, not exceptions: a PCR call (non-empty
template, primers at least `min_anneal_len` long) in which an annealing core
does not bind, or whose geometry is inverted on a linear template, returns an
empty amplicon list with a non-empty message; a ligation call in which no
subset permutation is compatible at every junction returns an empty product
list with a non-empty message.  Neither raises. -/
theorem C7_no_result :
    (∀ (template : SequenceRecord) (f r : List Char) (mal : Nat),
      template.sequence ≠ [] → f ≠ [] → r ≠ [] →
      mal ≤ f.length → mal ≤ r.length →
      (findSub (Pcr.takeLastPy mal (upperL f)) (upperL template.sequence) = none ∨
       findSub (Pcr.revcomp (Pcr.takeLastPy mal (upperL r))) (upperL template.sequence) = none ∨
       (∃ p q, findSub (Pcr.takeLastPy mal (upperL f)) (upperL template.sequence) = some p ∧
         findSub (Pcr.revcomp (Pcr.takeLastPy mal (upperL r))) (upperL template.sequence) = some q ∧
         ¬ p < q + (Pcr.revcomp (Pcr.takeLastPy mal (upperL r))).length ∧
         template.circular = false)) →
      ∃ res, Pcr.simulate_pcr template f r mal = .ok res ∧
        res.amplicons = [] ∧ res.message ≠ "") ∧
    (∀ (frags : List Fragment) (dephos : List String),
      (∀ k idxs ord, k ∈ List.range' 1 frags.length →
        idxs ∈ Ligation.combinations k (List.range frags.length) →
        ord ∈ Ligation.permutationsPy idxs →
        Ligation.tryOrder frags dephos k ord = none) →
      (Ligation.simulate_ligation frags dephos).products = [] ∧
      (Ligation.simulate_ligation frags dephos).message ≠ "") := by
  constructor
  · intro template f r mal htne hfne hrne hf hr hcase
    have htne' : upperL template.sequence ≠ [] := by
      simpa [upperL, List.map_eq_nil_iff] using htne
    have hlenf : ¬ ((upperL f).length < mal) := by simp [upperL]; omega
    have hlenr : ¬ ((upperL r).length < mal) := by simp [upperL]; omega
    unfold Pcr.simulate_pcr
    rw [if_neg (by push_neg; exact ⟨htne', hfne, hrne⟩)]
    rw [if_neg (by push_neg; exact ⟨Nat.not_lt.mp hlenf, Nat.not_lt.mp hlenr⟩)]
    rcases hcase with hnf | hnr | ⟨p, q, hp, hq, hgeom, hlin⟩
    · simp only [hnf]
      exact ⟨_, rfl, rfl, by decide⟩
    · cases hfv : findSub (Pcr.takeLastPy mal (upperL f)) (upperL template.sequence) with
      | none => simp only [hfv, hnr]; exact ⟨_, rfl, rfl, by decide⟩
      | some p => simp only [hfv, hnr]; exact ⟨_, rfl, rfl, by decide⟩
    · simp only [hp, hq, if_neg hgeom, hlin, Bool.false_eq_true, if_false]
      exact ⟨_, rfl, rfl, by decide⟩
  · intro frags dephos hnone
    have hsearch : Ligation.ligationSearch frags dephos = [] := by
      unfold Ligation.ligationSearch
      rw [List.flatMap_eq_nil_iff.mpr]
      intro k hk
      rw [List.flatMap_eq_nil_iff.mpr]
      intro idxs hidxs
      rw [List.filterMap_eq_nil_iff.mpr]
      intro ord hord
      exact hnone k idxs ord hk hidxs hord
    unfold Ligation.simulate_ligation
    rw [hsearch]
    exact ⟨rfl, by decide⟩


/-- C7, witness: the no-result contract evaluated on a PCR call whose
forward core `CCCC` does not bind, and a one-fragment ligation call with no
compatible cycle. -/
theorem C7_witness :
    (∃ res, Pcr.simulate_pcr { sequence := "AAAATTTT".toList }
        "CCCC".toList "GGGG".toList 4 = .ok res ∧
      res.amplicons = [] ∧ res.message ≠ "") ∧
    ((Ligation.simulate_ligation [exW] []).products = [] ∧
     (Ligation.simulate_ligation [exW] []).message ≠ "") := by
  constructor
  · exact C7_no_result.1 { sequence := "AAAATTTT".toList } "CCCC".toList "GGGG".toList 4
      (by decide) (by decide) (by decide) (by decide) (by decide) (Or.inl (by decide))
  · refine C7_no_result.2 [exW] [] ?_
    intro k idxs ord hk hidx hord
    rw [show List.range' 1 (List.length [exW]) = [1] from rfl] at hk
    simp at hk
    subst hk
    rw [show Ligation.combinations 1 (List.range (List.length [exW])) = [[0]] from rfl] at hidx
    simp at hidx
    subst hidx
    rw [show Ligation.permutationsPy [0] = [[0]] from rfl] at hord
    simp at hord
    subst hord
    decide

/-! ### C5: two-fragment sticky ligation (amended) -/

theorem c5_compat_sticky : Ligation.are_compatible_ends aattEnd aattEnd = true := by decide

theorem c5_compat_blunt {e1 e2 : FragmentEnd}
    (h1 : e1.kind = EndType.blunt) (h2 : e2.kind = EndType.blunt) :
    Ligation.are_compatible_ends e1 e2 = true := by
  unfold Ligation.are_compatible_ends
  rw [if_pos ⟨h1, h2⟩]

theorem c5_incompat_left {e2 : FragmentEnd} (h2 : e2.kind = EndType.blunt) :
    Ligation.are_compatible_ends aattEnd e2 = false := by
  unfold Ligation.are_compatible_ends
  rw [if_neg (by rw [show aattEnd.kind = EndType.fiveOverhang from rfl]; simp)]
  have hn : Ligation.normalize_overhang e2 = (EndType.blunt, []) := by
    unfold Ligation.normalize_overhang
    rw [if_pos (Or.inl h2)]
  rw [hn]
  simp [Ligation.normalize_overhang]

theorem c5_incompat_right {e1 : FragmentEnd} (h1 : e1.kind = EndType.blunt) :
    Ligation.are_compatible_ends e1 aattEnd = false := by
  unfold Ligation.are_compatible_ends
  rw [if_neg (by rw [show aattEnd.kind = EndType.fiveOverhang from rfl]; simp)]
  have hn : Ligation.normalize_overhang e1 = (EndType.blunt, []) := by
    unfold Ligation.normalize_overhang
    rw [if_pos (Or.inl h1)]
  rw [hn]
  simp

/-- C5, amended: for two fragments joined by complementary `AATT` 5'-overhangs
(one fragment's 3' end against the other's 5' end, remaining ends blunt, both
sequences at least 4 bases), `simulate_ligation` returns exactly **two**
circular products — one per rotation of the single valid cycle — each of
length `|a| + |b| - 4`. -/
theorem C5_amended (a b : Fragment)
    (ha5 : a.overhang_5.kind = EndType.blunt) (ha3 : a.overhang_3 = aattEnd)
    (hb5 : b.overhang_5 = aattEnd) (hb3 : b.overhang_3.kind = EndType.blunt)
    (hla : 4 ≤ a.sequence.length) (hlb : 4 ≤ b.sequence.length) :
    (Ligation.simulate_ligation [a, b] []).products.length = 2 ∧
    ∀ p ∈ (Ligation.simulate_ligation [a, b] []).products,
      p.circular = true ∧ p.length = a.sequence.length + b.sequence.length - 4 := by
  have hc01 : Ligation.are_compatible_ends a.overhang_3 b.overhang_5 = true := by
    rw [ha3, hb5]; exact c5_compat_sticky
  have hc10 : Ligation.are_compatible_ends b.overhang_3 a.overhang_5 = true :=
    c5_compat_blunt hb3 ha5
  have hsa : Ligation.are_compatible_ends a.overhang_3 a.overhang_5 = false := by
    rw [ha3]; exact c5_incompat_left ha5
  have hsb : Ligation.are_compatible_ends b.overhang_3 b.overhang_5 = false := by
    rw [hb5]; exact c5_incompat_right hb3
  have t10 : Ligation.tryOrder [a, b] [] 1 [0] = none := by
    unfold Ligation.tryOrder Ligation.try_circular_ligation
    simp [show List.range 1 = [0] from rfl, hsa]
  have t11 : Ligation.tryOrder [a, b] [] 1 [1] = none := by
    unfold Ligation.tryOrder Ligation.try_circular_ligation
    simp [show List.range 1 = [0] from rfl, hsb]
  have t2a : Ligation.tryOrder [a, b] [] 2 [0, 1] =
      some { Ligation.build_circular_product [a, b] ["frag0", "frag1"] with
             info := ⟨2, [0, 1], [if a.name = "" then "frag0" else a.name,
                                  if b.name = "" then "frag1" else b.name]⟩ } := by
    unfold Ligation.tryOrder Ligation.try_circular_ligation
    simp [show List.range 2 = [0, 1] from rfl, hc01, hc10,
      show ("frag" ++ toString 0 : String) = "frag0" from rfl,
      show ("frag" ++ toString 1 : String) = "frag1" from rfl]
  have t2b : Ligation.tryOrder [a, b] [] 2 [1, 0] =
      some { Ligation.build_circular_product [b, a] ["frag1", "frag0"] with
             info := ⟨2, [1, 0], [if b.name = "" then "frag1" else b.name,
                                  if a.name = "" then "frag0" else a.name]⟩ } := by
    unfold Ligation.tryOrder Ligation.try_circular_ligation
    simp [show List.range 2 = [0, 1] from rfl, hc01, hc10,
      show ("frag" ++ toString 0 : String) = "frag0" from rfl,
      show ("frag" ++ toString 1 : String) = "frag1" from rfl]
  have hnb3 : Ligation.normalize_overhang b.overhang_3 = (EndType.blunt, []) := by
    unfold Ligation.normalize_overhang
    rw [if_pos (Or.inl hb3)]
  have hlen1 : (Ligation.build_circular_product [a, b] ["frag0", "frag1"]).length
      = a.sequence.length + b.sequence.length - 4 := by
    unfold Ligation.build_circular_product
    simp [Ligation.buildFold, ha3, hb3, hnb3,
      show (Ligation.normalize_overhang aattEnd).1 = EndType.fiveOverhang from rfl,
      show aattEnd.kind = EndType.fiveOverhang from rfl,
      show aattEnd.seq.length = 4 from rfl]
    omega
  have hlen2 : (Ligation.build_circular_product [b, a] ["frag1", "frag0"]).length
      = a.sequence.length + b.sequence.length - 4 := by
    unfold Ligation.build_circular_product
    simp [Ligation.buildFold, ha3, hb3, hnb3, Ligation.dropLastPy,
      show (Ligation.normalize_overhang aattEnd).1 = EndType.fiveOverhang from rfl,
      show aattEnd.kind = EndType.fiveOverhang from rfl,
      show aattEnd.seq.length = 4 from rfl]
    omega
  have hsearch : Ligation.ligationSearch [a, b] [] =
      [{ Ligation.build_circular_product [a, b] ["frag0", "frag1"] with
         info := ⟨2, [0, 1], [if a.name = "" then "frag0" else a.name,
                              if b.name = "" then "frag1" else b.name]⟩ },
       { Ligation.build_circular_product [b, a] ["frag1", "frag0"] with
         info := ⟨2, [1, 0], [if b.name = "" then "frag1" else b.name,
                              if a.name = "" then "frag0" else a.name]⟩ }] := by
    unfold Ligation.ligationSearch
    rw [show List.range' 1 (List.length [a, b]) = [1, 2] from rfl]
    rw [show List.range (List.length [a, b]) = [0, 1] from rfl]
    simp only [List.flatMap_cons, List.flatMap_nil,
      show Ligation.combinations 1 [0, 1] = [[0], [1]] from rfl,
      show Ligation.combinations 2 [0, 1] = [[0, 1]] from rfl,
      show Ligation.permutationsPy [0] = [[0]] from rfl,
      show Ligation.permutationsPy [1] = [[1]] from rfl,
      show Ligation.permutationsPy [0, 1] = [[0, 1], [1, 0]] from rfl,
      List.filterMap_cons, t10, t11, t2a, t2b, List.filterMap_nil]
    simp
  unfold Ligation.simulate_ligation
  rw [hsearch]
  constructor
  · simp [List.insertionSort, List.orderedInsert]
  · intro p hp
    simp only [List.insertionSort, List.orderedInsert] at hp
    simp at hp
    rcases hp with rfl | rfl
    · exact ⟨rfl, hlen1⟩
    · exact ⟨rfl, hlen2⟩


/-- C5, witness: the amended two-product behavior evaluated on the concrete
fragments `exA`/`exB` (8 bases each, products of length 12). -/
theorem C5_witness :
    (Ligation.simulate_ligation [exA, exB] []).products.length = 2 ∧
    ∀ p ∈ (Ligation.simulate_ligation [exA, exB] []).products,
      p.circular = true ∧ p.length = exA.sequence.length + exB.sequence.length - 4 :=
  C5_amended exA exB (by decide) (by decide) (by decide) (by decide) (by decide) (by decide)

/-! ### C2: three-fragment search multiplicity (amended) -/

theorem tryOrder_count {frags : List Fragment} {d : List String} {k : Nat}
    {ord : List Nat} {pr : Ligation.Product}
    (h : Ligation.tryOrder frags d k ord = some pr) : pr.info.fragment_count = k := by
  unfold Ligation.tryOrder at h
  cases htc : Ligation.try_circular_ligation (ord.map (fun i => frags.getD i default))
      (ord.map (fun i => "frag" ++ toString i)) d with
  | none =>
      simp only [htc, Option.map_none'] at h
      exact Option.noConfusion h
  | some base =>
      simp only [htc, Option.map_some', Option.some.injEq] at h
      rw [← h]

theorem countP3_filterMap_ne (frags : List Fragment) (d : List String) (k : Nat)
    (hk : k ≠ 3) (ords : List (List Nat)) :
    List.countP (fun pr => pr.info.fragment_count == 3)
      (ords.filterMap (Ligation.tryOrder frags d k)) = 0 := by
  rw [List.countP_eq_zero]
  intro pr hpr
  rw [List.mem_filterMap] at hpr
  obtain ⟨ord, _, hord⟩ := hpr
  have hc := tryOrder_count hord
  simp [hc, hk]

theorem countP3_filterMap_eq (frags : List Fragment) (d : List String)
    (ords : List (List Nat)) :
    List.countP (fun pr => pr.info.fragment_count == 3)
      (ords.filterMap (Ligation.tryOrder frags d 3)) =
    (ords.filterMap (Ligation.tryOrder frags d 3)).length := by
  rw [List.countP_eq_length]
  intro pr hpr
  rw [List.mem_filterMap] at hpr
  obtain ⟨ord, _, hord⟩ := hpr
  have hc := tryOrder_count hord
  simp [hc]

/-- C2, amended: when exactly one of the two cyclic adjacency classes of
three fragments is compatible at all three junctions, `simulate_ligation`
returns exactly **3** products with `fragment_count = 3` — one per
rotation-equivalent permutation of the valid cycle (rotations are *not*
deduplicated). -/
theorem length_filterMap_eq_countP (f : α → Option β) (l : List α) :
    (l.filterMap f).length = l.countP (fun x => (f x).isSome) := by
  induction l with
  | nil => rfl
  | cons x xs ih => cases hf : f x <;> simp [List.filterMap_cons, hf, List.countP_cons, ih]

/-- C2, amended: when exactly one of the two cyclic adjacency classes of
three fragments is compatible at all three junctions, `simulate_ligation`
returns exactly **3** products with `fragment_count = 3` — one per
rotation-equivalent permutation of the valid cycle (rotations are *not*
deduplicated). -/
theorem C2_amended (f0 f1 f2 : Fragment)
    (h : (cyc3 f0 f1 f2 = true ∧ cyc3 f0 f2 f1 = false) ∨
         (cyc3 f0 f1 f2 = false ∧ cyc3 f0 f2 f1 = true)) :
    ((Ligation.simulate_ligation [f0, f1, f2] []).products.filter
      (fun pr => pr.info.fragment_count == 3)).length = 3 := by
  have hperm := List.perm_insertionSort
    (fun a b : Ligation.Product => a.info.fragment_count ≤ b.info.fragment_count)
    (Ligation.ligationSearch [f0, f1, f2] [])
  have hprod : (Ligation.simulate_ligation [f0, f1, f2] []).products =
      (Ligation.ligationSearch [f0, f1, f2] []).insertionSort
        (fun a b => a.info.fragment_count ≤ b.info.fragment_count) := rfl
  rw [hprod, ← List.countP_eq_length_filter, hperm.countP_eq]
  unfold Ligation.ligationSearch
  rw [show List.range' 1 (List.length [f0, f1, f2]) = [1, 2, 3] from rfl]
  rw [show List.range (List.length [f0, f1, f2]) = [0, 1, 2] from rfl]
  simp only [List.flatMap_cons, List.flatMap_nil,
    show Ligation.combinations 1 [0, 1, 2] = [[0], [1], [2]] from rfl,
    show Ligation.combinations 2 [0, 1, 2] = [[0, 1], [0, 2], [1, 2]] from rfl,
    show Ligation.combinations 3 [0, 1, 2] = [[0, 1, 2]] from rfl,
    show Ligation.permutationsPy [0] = [[0]] from rfl,
    show Ligation.permutationsPy [1] = [[1]] from rfl,
    show Ligation.permutationsPy [2] = [[2]] from rfl,
    show Ligation.permutationsPy [0, 1] = [[0, 1], [1, 0]] from rfl,
    show Ligation.permutationsPy [0, 2] = [[0, 2], [2, 0]] from rfl,
    show Ligation.permutationsPy [1, 2] = [[1, 2], [2, 1]] from rfl,
    show Ligation.permutationsPy [0, 1, 2] =
      [[0, 1, 2], [0, 2, 1], [1, 0, 2], [1, 2, 0], [2, 0, 1], [2, 1, 0]] from rfl,
    List.append_nil]
  have z1 := countP3_filterMap_ne [f0, f1, f2] [] 1 (by omega)
  have z2 := countP3_filterMap_ne [f0, f1, f2] [] 2 (by omega)
  simp only [List.countP_append, z1, z2, Nat.zero_add, Nat.add_zero]
  rw [countP3_filterMap_eq, length_filterMap_eq_countP]
  rcases h with ⟨hA, hB⟩ | ⟨hA, hB⟩
  · rw [cyc3] at hA
    rw [Bool.and_eq_true, Bool.and_eq_true] at hA
    obtain ⟨⟨hA1, hA2⟩, hA3⟩ := hA
    have hanti : Ligation.are_compatible_ends f0.overhang_3 f2.overhang_5 = false ∨
        Ligation.are_compatible_ends f2.overhang_3 f1.overhang_5 = false ∨
        Ligation.are_compatible_ends f1.overhang_3 f0.overhang_5 = false := by
      rw [cyc3, Bool.and_eq_false_iff, Bool.and_eq_false_iff] at hB
      tauto
    have s012 : (Ligation.tryOrder [f0, f1, f2] [] 3 [0, 1, 2]).isSome = true := by
      unfold Ligation.tryOrder Ligation.try_circular_ligation
      simp [show List.range 3 = [0, 1, 2] from rfl, hA1, hA2, hA3]
    have s120 : (Ligation.tryOrder [f0, f1, f2] [] 3 [1, 2, 0]).isSome = true := by
      unfold Ligation.tryOrder Ligation.try_circular_ligation
      simp [show List.range 3 = [0, 1, 2] from rfl, hA1, hA2, hA3]
    have s201 : (Ligation.tryOrder [f0, f1, f2] [] 3 [2, 0, 1]).isSome = true := by
      unfold Ligation.tryOrder Ligation.try_circular_ligation
      simp [show List.range 3 = [0, 1, 2] from rfl, hA1, hA2, hA3]
    have s021 : (Ligation.tryOrder [f0, f1, f2] [] 3 [0, 2, 1]).isSome = false := by
      unfold Ligation.tryOrder Ligation.try_circular_ligation
      rcases hanti with hx | hx | hx <;>
        simp [show List.range 3 = [0, 1, 2] from rfl, hx]
    have s102 : (Ligation.tryOrder [f0, f1, f2] [] 3 [1, 0, 2]).isSome = false := by
      unfold Ligation.tryOrder Ligation.try_circular_ligation
      rcases hanti with hx | hx | hx <;>
        simp [show List.range 3 = [0, 1, 2] from rfl, hx]
    have s210 : (Ligation.tryOrder [f0, f1, f2] [] 3 [2, 1, 0]).isSome = false := by
      unfold Ligation.tryOrder Ligation.try_circular_ligation
      rcases hanti with hx | hx | hx <;>
        simp [show List.range 3 = [0, 1, 2] from rfl, hx]
    simp [List.countP_cons, s012, s021, s102, s120, s201, s210]
  · rw [cyc3] at hB
    rw [Bool.and_eq_true, Bool.and_eq_true] at hB
    obtain ⟨⟨hB1, hB2⟩, hB3⟩ := hB
    have hanti : Ligation.are_compatible_ends f0.overhang_3 f1.overhang_5 = false ∨
        Ligation.are_compatible_ends f1.overhang_3 f2.overhang_5 = false ∨
        Ligation.are_compatible_ends f2.overhang_3 f0.overhang_5 = false := by
      rw [cyc3, Bool.and_eq_false_iff, Bool.and_eq_false_iff] at hA
      tauto
    have s021 : (Ligation.tryOrder [f0, f1, f2] [] 3 [0, 2, 1]).isSome = true := by
      unfold Ligation.tryOrder Ligation.try_circular_ligation
      simp [show List.range 3 = [0, 1, 2] from rfl, hB1, hB2, hB3]
    have s102 : (Ligation.tryOrder [f0, f1, f2] [] 3 [1, 0, 2]).isSome = true := by
      unfold Ligation.tryOrder Ligation.try_circular_ligation
      simp [show List.range 3 = [0, 1, 2] from rfl, hB1, hB2, hB3]
    have s210 : (Ligation.tryOrder [f0, f1, f2] [] 3 [2, 1, 0]).isSome = true := by
      unfold Ligation.tryOrder Ligation.try_circular_ligation
      simp [show List.range 3 = [0, 1, 2] from rfl, hB1, hB2, hB3]
    have s012 : (Ligation.tryOrder [f0, f1, f2] [] 3 [0, 1, 2]).isSome = false := by
      unfold Ligation.tryOrder Ligation.try_circular_ligation
      rcases hanti with hx | hx | hx <;>
        simp [show List.range 3 = [0, 1, 2] from rfl, hx]
    have s120 : (Ligation.tryOrder [f0, f1, f2] [] 3 [1, 2, 0]).isSome = false := by
      unfold Ligation.tryOrder Ligation.try_circular_ligation
      rcases hanti with hx | hx | hx <;>
        simp [show List.range 3 = [0, 1, 2] from rfl, hx]
    have s201 : (Ligation.tryOrder [f0, f1, f2] [] 3 [2, 0, 1]).isSome = false := by
      unfold Ligation.tryOrder Ligation.try_circular_ligation
      rcases hanti with hx | hx | hx <;>
        simp [show List.range 3 = [0, 1, 2] from rfl, hx]
    simp [List.countP_cons, s012, s021, s102, s120, s201, s210]


/-- C2, witness: the amended three-product behavior evaluated on the concrete
fragments `exF0, exF1, exF2` (only the cycle `exF0 → exF1 → exF2` is
compatible). -/
theorem C2_witness :
    ((Ligation.simulate_ligation [exF0, exF1, exF2] []).products.filter
      (fun pr => pr.info.fragment_count == 3)).length = 3 :=
  C2_amended exF0 exF1 exF2 (Or.inl ⟨by decide, by decide⟩)

/-! ### C10: fragment tiling -/

theorem cut_to_boundary_lt (x : Int) (t L : Nat) (hL : 0 < L) :
    Digestion.cut_to_boundary x t L < L := by
  unfold Digestion.cut_to_boundary
  have h1 : 0 ≤ (x + (t : Int) - 1 + (L : Int)) % (L : Int) :=
    Int.emod_nonneg _ (by omega)
  have h2 : (x + (t : Int) - 1 + (L : Int)) % (L : Int) < (L : Int) :=
    Int.emod_lt_of_pos _ (by omega)
  omega

theorem addInfo_borders (st : Digestion.ScanState) (m : String) :
    (Digestion.addInfo st m).borders = st.borders := by
  unfold Digestion.addInfo
  split <;> rfl

theorem addCut_borders (st : Digestion.ScanState) (b : Nat) (l3 r5 : FragmentEnd) :
    (Digestion.addCut st b l3 r5).borders = st.borders ++ [b] := rfl

theorem borders_lt_foldl {α : Type} {L : Nat} (f : Digestion.ScanState → α → Digestion.ScanState)
    (hf : ∀ st x b, b ∈ (f st x).borders → b ∈ st.borders ∨ b < L) :
    ∀ (l : List α) (st : Digestion.ScanState),
      (∀ b ∈ st.borders, b < L) → ∀ b ∈ (l.foldl f st).borders, b < L := by
  intro l
  induction l with
  | nil => exact fun st h => h
  | cons x xs ih =>
      intro st h b hb
      exact ih (f st x) (fun b' hb' => (hf st x b' hb').elim (h b') id) b hb

theorem scanForward_borders_lt (s : List Char) (L : Nat) (circ : Bool)
    (name : String) (site : List Char) (tcut bcut : Nat) (hL : 0 < L)
    (st : Digestion.ScanState) (hst : ∀ b ∈ st.borders, b < L) :
    ∀ b ∈ (Digestion.scanForward s L circ name site tcut bcut st).borders, b < L := by
  unfold Digestion.scanForward
  refine borders_lt_foldl _ ?_ _ st hst
  intro st' p b hb
  simp only [addCut_borders] at hb
  rw [show (if ¬circ = true ∧ (Int.ofNat p < 6 ∨ (L : Int) - (Int.ofNat p + site.length) < 6)
      then Digestion.addInfo st' (Digestion.flankMsg name (p + 1) false) else st').borders
      = st'.borders from by split <;> simp [addInfo_borders]] at hb
  rw [List.mem_append] at hb
  rcases hb with hb | hb
  · exact Or.inl hb
  · simp at hb
    exact Or.inr (hb ▸ cut_to_boundary_lt _ _ _ hL)

theorem scanReverse_borders_lt (s : List Char) (L : Nat) (circ : Bool)
    (name : String) (site : List Char) (tcut bcut : Nat) (hL : 0 < L)
    (st : Digestion.ScanState) (hst : ∀ b ∈ st.borders, b < L) :
    ∀ b ∈ (Digestion.scanReverse s L circ name site tcut bcut st).borders, b < L := by
  unfold Digestion.scanReverse
  refine borders_lt_foldl _ ?_ _ st hst
  intro st' m b hb
  simp only [addCut_borders] at hb
  rw [show (if ¬circ = true ∧ (Digestion.apply_rev_orientation m site.length L < 6 ∨
        (L : Int) - (Digestion.apply_rev_orientation m site.length L + site.length) < 6)
      then Digestion.addInfo st'
        (Digestion.flankMsg name (Digestion.apply_rev_orientation m site.length L + 1).toNat true)
      else st').borders = st'.borders from by split <;> simp [addInfo_borders]] at hb
  rw [List.mem_append] at hb
  rcases hb with hb | hb
  · exact Or.inl hb
  · simp at hb
    exact Or.inr (hb ▸ cut_to_boundary_lt _ _ _ hL)

theorem scanWrapForward_borders_lt (s : List Char) (L : Nat)
    (site : List Char) (tcut bcut : Nat) (hL : 0 < L)
    (st : Digestion.ScanState) (hst : ∀ b ∈ st.borders, b < L) :
    ∀ b ∈ (Digestion.scanWrapForward s L site tcut bcut st).borders, b < L := by
  unfold Digestion.scanWrapForward
  refine borders_lt_foldl _ ?_ _ st hst
  intro st' s0 b hb
  split at hb
  · exact Or.inl hb
  · cases hfind : Digestion.mapFind st'.left3
        (Digestion.cut_to_boundary (Int.ofNat (s0 % L)) tcut L) with
    | some v => simp only [hfind] at hb; exact Or.inl hb
    | none =>
        simp only [hfind] at hb
        rw [addCut_borders, List.mem_append] at hb
        rcases hb with hb | hb
        · exact Or.inl hb
        · simp at hb
          exact Or.inr (hb ▸ cut_to_boundary_lt _ _ _ hL)

theorem scanWrapReverse_borders_lt (s : List Char) (L : Nat)
    (site : List Char) (tcut bcut : Nat) (hL : 0 < L)
    (st : Digestion.ScanState) (hst : ∀ b ∈ st.borders, b < L) :
    ∀ b ∈ (Digestion.scanWrapReverse s L site tcut bcut st).borders, b < L := by
  unfold Digestion.scanWrapReverse
  refine borders_lt_foldl _ ?_ _ st hst
  intro st' s0 b hb
  split at hb
  · exact Or.inl hb
  · cases hfind : Digestion.mapFind st'.left3
        (Digestion.cut_to_boundary
          (Digestion.apply_rev_orientation s0 site.length L % (L : Int))
          (site.length - bcut) L) with
    | some v => simp only [hfind] at hb; exact Or.inl hb
    | none =>
        simp only [hfind] at hb
        rw [addCut_borders, List.mem_append] at hb
        rcases hb with hb | hb
        · exact Or.inl hb
        · simp at hb
          exact Or.inr (hb ▸ cut_to_boundary_lt _ _ _ hL)

theorem scanEnzyme_borders_lt (s : List Char) (L : Nat) (circ : Bool)
    (st st' : Digestion.ScanState) (enz : Digestion.EnzymeSpec) (hL : 0 < L)
    (h : Digestion.scanEnzyme s L circ st enz = .ok st')
    (hst : ∀ b ∈ st.borders, b < L) :
    ∀ b ∈ st'.borders, b < L := by
  unfold Digestion.scanEnzyme at h
  dsimp only [] at h
  split at h
  · exact absurd h (by simp)
  · split at h
    · exact absurd h (by simp)
    · split at h
      · exact absurd h (by simp)
      · have h1 := scanForward_borders_lt s L circ enz.name (upperL enz.site)
          enz.top_cut enz.bottom_cut hL st hst
        have h2 := scanReverse_borders_lt s L circ enz.name (upperL enz.site)
          enz.top_cut enz.bottom_cut hL _ h1
        split at h
        · have h3 := scanWrapForward_borders_lt s L (upperL enz.site)
            enz.top_cut enz.bottom_cut hL _ h2
          have h4 := scanWrapReverse_borders_lt s L (upperL enz.site)
            enz.top_cut enz.bottom_cut hL _ h3
          cases h
          exact h4
        · cases h
          exact h2

theorem foldlM_scan_borders_lt (s : List Char) (L : Nat) (circ : Bool) (hL : 0 < L) :
    ∀ (es : List Digestion.EnzymeSpec) (st st' : Digestion.ScanState),
      es.foldlM (Digestion.scanEnzyme s L circ) st = .ok st' →
      (∀ b ∈ st.borders, b < L) → ∀ b ∈ st'.borders, b < L := by
  intro es
  induction es with
  | nil =>
      intro st st' h hst
      cases h
      exact hst
  | cons e es ih =>
      intro st st' h hst
      rw [List.foldlM_cons] at h
      cases he : Digestion.scanEnzyme s L circ st e with
      | error msg =>
          rw [he] at h
          exact Except.noConfusion h
      | ok st1 =>
          rw [he] at h
          have h1 := scanEnzyme_borders_lt s L circ st st1 e hL he hst
          exact ih st1 st' h h1

theorem sortedCuts_perm (borders : List Nat) :
    (Digestion.sortedCuts borders).Perm borders.dedup :=
  List.perm_insertionSort _ _

theorem sortedCuts_nodup (borders : List Nat) : (Digestion.sortedCuts borders).Nodup :=
  (sortedCuts_perm borders).nodup_iff.mpr (List.nodup_dedup borders)

theorem sortedCuts_sorted (borders : List Nat) :
    List.Sorted (· < ·) (Digestion.sortedCuts borders) :=
  (List.sorted_insertionSort _ _).lt_of_le (sortedCuts_nodup borders)

theorem sortedCuts_mem {borders : List Nat} {b : Nat} :
    b ∈ Digestion.sortedCuts borders ↔ b ∈ borders := by
  rw [(sortedCuts_perm borders).mem_iff, List.mem_dedup]

theorem sortedCuts_ne_nil {borders : List Nat} (h : borders ≠ []) :
    Digestion.sortedCuts borders ≠ [] := by
  obtain ⟨x, hx⟩ := List.exists_mem_of_ne_nil borders h
  intro hnil
  have hmem := sortedCuts_mem.mpr hx
  rw [hnil] at hmem
  exact absurd hmem (List.not_mem_nil x)

theorem frag_seq_length_circ {s : List Char} {L : Nat} (a0 b0 : Nat)
    (hs : s.length = L) (ha : a0 < L) (hb : b0 < L) :
    (Digestion.frag_seq s a0 b0 true).length =
      if a0 ≤ b0 then b0 + 1 - a0 else (L - a0) + (b0 + 1) := by
  unfold Digestion.frag_seq
  rcases le_or_lt a0 b0 with hab | hab
  · rw [if_pos (Or.inr hab), if_pos hab]
    simp [List.length_take, List.length_drop]
    omega
  · rw [if_neg (by simp; omega), if_neg (by omega)]
    simp [List.length_take, List.length_drop]
    omega

theorem circFragment_props (s : List Char) (L : Nat)
    (left3 right5 : List (Nat × FragmentEnd)) (bl br : Nat)
    (hbl : bl < L) (hbr : br < L) (hs : s.length = L) :
    (Digestion.circFragment s L left3 right5 bl br).length
        = (if bl < br then br - bl else L - bl + br) ∧
    (Digestion.circFragment s L left3 right5 bl br).sequence.length
        = (Digestion.circFragment s L left3 right5 bl br).length ∧
    coordSpan L (Digestion.circFragment s L left3 right5 bl br).start
        (Digestion.circFragment s L left3 right5 bl br).stop
      = (Digestion.circFragment s L left3 right5 bl br).length := by
  have hL : 0 < L := by omega
  have hb0 : br % L = br := Nat.mod_eq_of_lt hbr
  unfold Digestion.circFragment
  simp only [hb0]
  set a0 := (bl + 1) % L with ha0def
  have ha0lt : a0 < L := Nat.mod_lt _ hL
  have hcases : (bl + 1 = L ∧ a0 = 0) ∨ (bl + 1 < L ∧ a0 = bl + 1) := by
    rcases Nat.lt_or_ge (bl + 1) L with h | h
    · exact Or.inr ⟨h, by rw [ha0def, Nat.mod_eq_of_lt h]⟩
    · have heq : bl + 1 = L := by omega
      exact Or.inl ⟨heq, by rw [ha0def, heq, Nat.mod_self]⟩
  refine ⟨?_, ?_, ?_⟩
  · show (if a0 ≤ br then br - a0 + 1 else L - a0 + (br + 1)) = _
    rcases hcases with ⟨h1, h2⟩ | ⟨h1, h2⟩ <;> split_ifs <;> omega
  · show (Digestion.frag_seq s a0 br true).length =
      (if a0 ≤ br then br - a0 + 1 else L - a0 + (br + 1))
    rw [frag_seq_length_circ a0 br hs ha0lt hbr]
    split_ifs <;> omega
  · show coordSpan L (a0 + 1) (br + 1) =
      (if a0 ≤ br then br - a0 + 1 else L - a0 + (br + 1))
    unfold coordSpan
    split_ifs <;> omega

theorem circ_chain_sum (L : Nat) :
    ∀ (rest : List Nat) (x f : Nat),
      List.Chain' (· < ·) (x :: rest) → (∀ b ∈ x :: rest, b < L) → f ≤ x →
      (((x :: rest).zip (rest ++ [f])).map
        (fun p => if p.1 < p.2 then p.2 - p.1 else L - p.1 + p.2)).sum = L - x + f := by
  intro rest
  induction rest with
  | nil =>
      intro x f _ hlt hfx
      simp [if_neg (by omega : ¬ x < f)]
  | cons y ys ih =>
      intro x f hchain hlt hfx
      rw [List.chain'_cons] at hchain
      have hxy : x < y := hchain.1
      have hy : ∀ b ∈ y :: ys, b < L := fun b hb => hlt b (List.mem_cons_of_mem x hb)
      have hsum := ih y f hchain.2 hy (by omega)
      show ((if x < y then y - x else L - x + y) ::
        (((y :: ys).zip (ys ++ [f])).map
          (fun p => if p.1 < p.2 then p.2 - p.1 else L - p.1 + p.2))).sum = L - x + f
      rw [List.sum_cons, hsum, if_pos hxy]
      have hyL : y < L := hy y (by simp)
      omega

theorem circularFragments_props (s : List Char) (L : Nat)
    (left3 right5 : List (Nat × FragmentEnd)) (cs : List Nat)
    (hs : s.length = L) (hne : cs ≠ []) (hsorted : List.Sorted (· < ·) cs)
    (hlt : ∀ b ∈ cs, b < L) :
    (((Digestion.circularFragments s L left3 right5 cs).map (fun fr => fr.length)).sum = L) ∧
    (∀ fr ∈ Digestion.circularFragments s L left3 right5 cs,
      fr.sequence.length = fr.length ∧ coordSpan L fr.start fr.stop = fr.length) := by
  have hL : 0 < L := by
    obtain ⟨x, hx⟩ := List.exists_mem_of_ne_nil cs hne
    have := hlt x hx
    omega
  have hpairmem : ∀ p ∈ cs.zip (cs.rotate 1), p.1 < L ∧ p.2 < L := by
    intro p hp
    obtain ⟨h1, h2⟩ := List.of_mem_zip hp
    exact ⟨hlt _ h1, hlt _ (List.mem_rotate.mp h2)⟩
  constructor
  · unfold Digestion.circularFragments
    rw [List.map_map]
    have hmapeq : (cs.zip (cs.rotate 1)).map
        ((fun fr => fr.length) ∘ (fun p => Digestion.circFragment s L left3 right5 p.1 p.2)) =
        (cs.zip (cs.rotate 1)).map
          (fun p => if p.1 < p.2 then p.2 - p.1 else L - p.1 + p.2) := by
      refine List.map_congr_left (fun p hp => ?_)
      obtain ⟨h1, h2⟩ := hpairmem p hp
      exact (circFragment_props s L left3 right5 p.1 p.2 h1 h2 hs).1
    rw [hmapeq]
    obtain ⟨x, rest, rfl⟩ := List.exists_cons_of_ne_nil hne
    rw [show (x :: rest).rotate 1 = rest ++ [x] from by
      simpa using List.rotate_cons_succ rest x 0]
    rw [circ_chain_sum L rest x x (List.chain'_iff_pairwise.mpr hsorted) hlt (le_refl x)]
    have hx : x < L := hlt x (by simp)
    omega
  · intro fr hfr
    unfold Digestion.circularFragments at hfr
    rw [List.mem_map] at hfr
    obtain ⟨p, hp, rfl⟩ := hfr
    obtain ⟨h1, h2⟩ := hpairmem p hp
    have hprops := circFragment_props s L left3 right5 p.1 p.2 h1 h2 hs
    exact ⟨hprops.2.1, hprops.2.2⟩

theorem chain_zip_consec {α : Type} (r : α → α → Prop) :
    ∀ (l : List α), List.Chain' r l → ∀ p ∈ l.zip l.tail, r p.1 p.2 := by
  intro l
  induction l with
  | nil => intro _ p hp; simp at hp
  | cons x xs ih =>
      intro hchain p hp
      cases xs with
      | nil => simp at hp
      | cons y ys =>
          rw [List.chain'_cons] at hchain
          simp only [List.tail_cons, List.zip_cons_cons, List.mem_cons] at hp
          rcases hp with rfl | hp
          · exact hchain.1
          · exact ih hchain.2 p (by simpa using hp)

theorem chain_le_getLastD :
    ∀ (ys : List Int) (y : Int), List.Chain' (· < ·) (y :: ys) → y ≤ ys.getLastD y := by
  intro ys
  induction ys with
  | nil => intro y _; simp
  | cons z zs ih =>
      intro y hchain
      rw [List.chain'_cons] at hchain
      have hz := ih z hchain.2
      simp only [List.getLastD_cons]
      omega

theorem lin_telescope :
    ∀ (xs : List Int) (x : Int), List.Chain' (· < ·) (x :: xs) →
      (((x :: xs).zip xs).map (fun p => (p.2 - p.1).toNat)).sum = (xs.getLastD x - x).toNat := by
  intro xs
  induction xs with
  | nil => intro x _; simp
  | cons y ys ih =>
      intro x hchain
      rw [List.chain'_cons] at hchain
      have hxy := hchain.1
      have hsum := ih y hchain.2
      have hyl := chain_le_getLastD ys y hchain.2
      simp only [List.zip_cons_cons, List.map_cons, List.sum_cons, List.getLastD_cons]
      rw [hsum]
      omega

theorem linFragment_props (s : List Char) (L : Nat)
    (left3 right5 : List (Nat × FragmentEnd)) (lb rb : Int)
    (h1 : -1 ≤ lb) (h2 : lb < rb) (h3 : rb ≤ (L : Int) - 1) (hs : s.length = L) :
    ∃ fr, Digestion.linFragment s L left3 right5 lb rb = some fr ∧
      fr.length = (rb - lb).toNat ∧
      fr.sequence.length = fr.length ∧
      coordSpan L fr.start fr.stop = fr.length := by
  unfold Digestion.linFragment
  rw [if_neg (by omega : ¬ (rb - (lb + 1) + 1 ≤ 0))]
  refine ⟨_, rfl, ?_, ?_, ?_⟩
  · show (rb - (lb + 1) + 1).toNat = (rb - lb).toNat
    omega
  · show (Digestion.frag_seq s (lb + 1).toNat rb.toNat false).length =
      (rb - (lb + 1) + 1).toNat
    rw [show Digestion.frag_seq s (lb + 1).toNat rb.toNat false =
        (s.drop (lb + 1).toNat).take (rb.toNat + 1 - (lb + 1).toNat) from by
      unfold Digestion.frag_seq
      rw [if_pos (Or.inl (by simp))]]
    simp only [List.length_take, List.length_drop, hs]
    omega
  · show coordSpan L ((lb + 1) + 1).toNat ((rb + 1)).toNat = (rb - (lb + 1) + 1).toNat
    unfold coordSpan
    split_ifs <;> omega

theorem lin_sum_lengths (s : List Char) (L : Nat)
    (left3 right5 : List (Nat × FragmentEnd)) (hs : s.length = L) :
    ∀ (prs : List (Int × Int)),
      (∀ p ∈ prs, -1 ≤ p.1 ∧ p.1 < p.2 ∧ p.2 ≤ (L : Int) - 1) →
      ((prs.filterMap (fun p => Digestion.linFragment s L left3 right5 p.1 p.2)).map
          (fun fr => fr.length)).sum
        = (prs.map (fun p => (p.2 - p.1).toNat)).sum := by
  intro prs
  induction prs with
  | nil => intro _; rfl
  | cons p ps ih =>
      intro hb
      obtain ⟨hp1, hp2, hp3⟩ := hb p (by simp)
      obtain ⟨fr, hfr, hlen, _, _⟩ := linFragment_props s L left3 right5 p.1 p.2 hp1 hp2 hp3 hs
      rw [List.filterMap_cons, hfr]
      simp only [List.map_cons, List.sum_cons]
      rw [ih (fun q hq => hb q (List.mem_cons_of_mem p hq)), hlen]

theorem linearFragments_props (s : List Char) (L : Nat)
    (left3 right5 : List (Nat × FragmentEnd)) (cs : List Nat)
    (hs : s.length = L) (hL : 0 < L) (hsorted : List.Sorted (· < ·) cs)
    (_hlt : ∀ b ∈ cs, b < L) :
    (((Digestion.linearFragments s L left3 right5 cs).map (fun fr => fr.length)).sum = L) ∧
    (∀ fr ∈ Digestion.linearFragments s L left3 right5 cs,
      fr.sequence.length = fr.length ∧ coordSpan L fr.start fr.stop = fr.length) := by
  unfold Digestion.linearFragments
  set cutsLin := cs.filter (fun b => decide (Int.ofNat b ≤ (L : Int) - 2)) with hcutsdef
  set points : List Int := -1 :: (cutsLin.map Int.ofNat ++ [(L : Int) - 1]) with hptsdef
  have hcmem : ∀ b ∈ cutsLin, (Int.ofNat b ≤ (L : Int) - 2) ∧ b ∈ cs := by
    intro b hb
    rw [hcutsdef, List.mem_filter] at hb
    exact ⟨by simpa using hb.2, hb.1⟩
  have hpair : List.Pairwise (· < ·) points := by
    rw [hptsdef]
    rw [List.pairwise_cons]
    constructor
    · intro y hy
      rw [List.mem_append] at hy
      rcases hy with hy | hy
      · rw [List.mem_map] at hy
        obtain ⟨b, _, rfl⟩ := hy
        simp only [Int.ofNat_eq_natCast]
        omega
      · simp at hy
        omega
    · rw [List.pairwise_append]
      refine ⟨?_, List.pairwise_singleton _ _, ?_⟩
      · rw [List.pairwise_map]
        refine (hsorted.filter _).imp ?_
        intro a b hab
        simp only [Int.ofNat_eq_natCast]
        omega
      · intro x hx y hy
        rw [List.mem_map] at hx
        obtain ⟨b, hb, rfl⟩ := hx
        have := (hcmem b hb).1
        simp at hy
        simp only [Int.ofNat_eq_natCast] at *
        omega
  have hchain : List.Chain' (· < ·) points := List.chain'_iff_pairwise.mpr hpair
  have hbounds : ∀ x ∈ points, -1 ≤ x ∧ x ≤ (L : Int) - 1 := by
    intro x hx
    rw [hptsdef, List.mem_cons, List.mem_append] at hx
    rcases hx with rfl | hx | hx
    · omega
    · rw [List.mem_map] at hx
      obtain ⟨b, hb, rfl⟩ := hx
      have := (hcmem b hb).1
      simp only [Int.ofNat_eq_natCast] at *
      omega
    · simp at hx
      omega
  have hpairs : ∀ p ∈ points.zip points.tail,
      -1 ≤ p.1 ∧ p.1 < p.2 ∧ p.2 ≤ (L : Int) - 1 := by
    intro p hp
    have hc := chain_zip_consec _ points hchain p hp
    obtain ⟨hm1, hm2⟩ := List.of_mem_zip hp
    have hb1 := hbounds p.1 hm1
    have hb2 := hbounds p.2 (List.mem_of_mem_tail hm2)
    exact ⟨hb1.1, hc, hb2.2⟩
  constructor
  · rw [lin_sum_lengths s L left3 right5 hs _ hpairs]
    have htail : points.tail = cutsLin.map Int.ofNat ++ [(L : Int) - 1] := by
      rw [hptsdef]
      rfl
    rw [htail]
    rw [show points = (-1 : Int) :: (cutsLin.map Int.ofNat ++ [(L : Int) - 1]) from hptsdef]
    rw [lin_telescope _ _ (by rw [← hptsdef]; exact hchain)]
    rw [List.getLastD_concat]
    omega
  · intro fr hfr
    rw [List.mem_filterMap] at hfr
    obtain ⟨p, hp, hfrp⟩ := hfr
    obtain ⟨hp1, hp2, hp3⟩ := hpairs p hp
    obtain ⟨fr', hfr', _, hpl, hsp⟩ := linFragment_props s L left3 right5 p.1 p.2 hp1 hp2 hp3 hs
    rw [hfr'] at hfrp
    cases hfrp
    exact ⟨hpl, hsp⟩

/-- C10: whenever `simulate_restriction_digestion` finds at least one cut
boundary, the returned fragments tile the record exactly once: in both
topologies every fragment's `length` equals its sequence payload's length
and the span from its `start` to its `end` coordinate (wrapping across the
origin for circular records), and the lengths sum to the record's total
length. -/
theorem C10_fragments_tile (rec : SequenceRecord) (names : List String)
    (res : Digestion.DigestResult)
    (hres : Digestion.simulate_restriction_digestion rec names = .ok res)
    (hcuts : res.cuts ≠ []) :
    ((res.fragments.map (fun fr => fr.length)).sum = rec.sequence.length) ∧
    (∀ fr ∈ res.fragments, fr.sequence.length = fr.length ∧
      coordSpan rec.sequence.length fr.start fr.stop = fr.length) := by
  have hslen : (upperL rec.sequence).length = rec.sequence.length := by simp [upperL]
  unfold Digestion.simulate_restriction_digestion at hres
  dsimp only [] at hres
  cases hlk : Digestion.lookupEnzymes names with
  | error e => rw [hlk] at hres; exact Except.noConfusion hres
  | ok enzymes =>
      rw [hlk] at hres
      dsimp only [] at hres
      by_cases hL0 : (upperL rec.sequence).length = 0
      · rw [if_pos hL0] at hres
        cases hres
        simp at hcuts
      · rw [if_neg hL0] at hres
        cases hsc : enzymes.foldlM
            (Digestion.scanEnzyme (upperL rec.sequence) (upperL rec.sequence).length
              rec.circular) ⟨[], [], [], []⟩ with
        | error e => rw [hsc] at hres; exact Except.noConfusion hres
        | ok st =>
            rw [hsc] at hres
            dsimp only [] at hres
            by_cases hb0 : st.borders = []
            · rw [if_pos hb0] at hres
              cases hres
              simp at hcuts
            · rw [if_neg hb0] at hres
              cases hres
              have hLpos : 0 < (upperL rec.sequence).length := by omega
              have hinv : ∀ b ∈ st.borders, b < (upperL rec.sequence).length :=
                foldlM_scan_borders_lt (upperL rec.sequence) (upperL rec.sequence).length
                  rec.circular hLpos enzymes ⟨[], [], [], []⟩ st hsc
                  (fun b hb => absurd hb (List.not_mem_nil b))
              have hcslt : ∀ b ∈ Digestion.sortedCuts st.borders,
                  b < (upperL rec.sequence).length :=
                fun b hb => hinv b (sortedCuts_mem.mp hb)
              have hcsne : Digestion.sortedCuts st.borders ≠ [] := sortedCuts_ne_nil hb0
              have hcssorted := sortedCuts_sorted st.borders
              unfold Digestion.assembleResult
              dsimp only []
              cases hcirc : rec.circular with
              | true =>
                  rw [if_pos rfl]
                  have hp := circularFragments_props (upperL rec.sequence)
                    (upperL rec.sequence).length st.left3 st.right5
                    (Digestion.sortedCuts st.borders) rfl hcsne hcssorted hcslt
                  rw [← hslen]
                  exact ⟨hp.1, fun fr hfr => (hp.2 fr hfr)⟩
              | false =>
                  rw [if_neg (by simp)]
                  have hp := linearFragments_props (upperL rec.sequence)
                    (upperL rec.sequence).length st.left3 st.right5
                    (Digestion.sortedCuts st.borders) rfl hLpos hcssorted hcslt
                  rw [← hslen]
                  exact ⟨hp.1, fun fr hfr => (hp.2 fr hfr)⟩


/-- C10, witness: the tiling property evaluated on the concrete EcoRI
digestion of `recW` (two fragments, lengths 7 + 11 = 18). -/
theorem C10_witness :
    ((resW.fragments.map (fun fr => fr.length)).sum = recW.sequence.length) ∧
    (∀ fr ∈ resW.fragments, fr.sequence.length = fr.length ∧
      coordSpan recW.sequence.length fr.start fr.stop = fr.length) :=
  C10_fragments_tile recW ["EcoRI"] resW rfl (by decide)

/-! ### C3: EcoRI single-site digestion -/

theorem matchesAt_bound {site s : List Char} {i : Nat} (hsite : site ≠ [])
    (h : matchesAt site s i = true) : i + site.length ≤ s.length := by
  have hseg : (s.drop i).take site.length = site := by simpa [matchesAt] using h
  have hlen : ((s.drop i).take site.length).length = site.length := by rw [hseg]
  simp only [List.length_take, List.length_drop] at hlen
  have hpos : 0 < site.length := List.length_pos.mpr hsite
  omega

theorem findIterAux_no_match (site s : List Char) :
    ∀ (fuel i : Nat), (∀ j, i ≤ j → matchesAt site s j = false) →
      findIterAux site s fuel i = [] := by
  intro fuel
  induction fuel with
  | zero => intro i _; rfl
  | succ fuel ih =>
      intro i h
      unfold findIterAux
      split
      · rfl
      · rw [h i (le_refl i)]
        simp only [Bool.false_eq_true, if_false]
        exact ih (i + 1) (fun j hj => h j (by omega))

theorem findIterAux_unique (site s : List Char) (p : Nat) (hsite : site ≠ [])
    (hmp : matchesAt site s p = true)
    (huniq : ∀ j, matchesAt site s j = true → j = p) :
    ∀ (fuel i : Nat), i ≤ p → s.length + 1 ≤ i + fuel →
      findIterAux site s fuel i = [p] := by
  have hpb := matchesAt_bound hsite hmp
  intro fuel
  induction fuel with
  | zero =>
      intro i hip hfuel
      exfalso
      omega
  | succ fuel ih =>
      intro i hip hfuel
      unfold findIterAux
      rw [if_neg (by omega : ¬ s.length < i)]
      rcases Nat.eq_or_lt_of_le hip with rfl | hlt
      · rw [hmp]
        simp only [if_true]
        rw [findIterAux_no_match site s fuel (i + max site.length 1)
          (fun j hj => by
            by_contra hc
            rw [Bool.not_eq_false] at hc
            have := huniq j hc
            have hpos : 0 < site.length := List.length_pos.mpr hsite
            omega)]
      · have hmi : matchesAt site s i = false := by
          by_contra hc
          rw [Bool.not_eq_false] at hc
          have := huniq i hc
          omega
        rw [hmi]
        simp only [Bool.false_eq_true, if_false]
        exact ih (i + 1) (by omega) (by omega)

theorem findIter_unique {site s : List Char} {p : Nat} (hsite : site ≠ [])
    (hmp : matchesAt site s p = true)
    (huniq : ∀ j, matchesAt site s j = true → j = p) :
    findIter site s = [p] := by
  unfold findIter
  exact findIterAux_unique site s p hsite hmp huniq (s.length + 1) 0
    (by have := matchesAt_bound hsite hmp; omega) (by omega)

theorem rcChar_involutive (c : Char) : Digestion.rcChar (Digestion.rcChar c) = c := by
  by_cases h1 : c = 'A'
  · subst h1; rfl
  by_cases h2 : c = 'C'
  · subst h2; rfl
  by_cases h3 : c = 'G'
  · subst h3; rfl
  by_cases h4 : c = 'T'
  · subst h4; rfl
  by_cases h5 : c = 'N'
  · subst h5; rfl
  by_cases h6 : c = 'a'
  · subst h6; rfl
  by_cases h7 : c = 'c'
  · subst h7; rfl
  by_cases h8 : c = 'g'
  · subst h8; rfl
  by_cases h9 : c = 't'
  · subst h9; rfl
  by_cases h10 : c = 'n'
  · subst h10; rfl
  have hc : Digestion.rcChar c = c := by
    unfold Digestion.rcChar
    rw [if_neg h1, if_neg h7, if_neg h3, if_neg h4, if_neg h5, if_neg h6,
      if_neg h2, if_neg h8, if_neg h9, if_neg h10]
  rw [hc, hc]

theorem revcomp_revcomp (s : List Char) :
    Digestion.revcomp (Digestion.revcomp s) = s := by
  unfold Digestion.revcomp
  rw [List.map_reverse, List.reverse_reverse, List.map_map]
  conv_rhs => rw [← List.map_id s]
  exact List.map_congr_left (fun c _ => rcChar_involutive c)

theorem revcomp_length (s : List Char) : (Digestion.revcomp s).length = s.length := by
  simp [Digestion.revcomp]

theorem revcomp_seg (u site : List Char) (j : Nat) (hj : j + site.length ≤ u.length) :
    ((Digestion.revcomp u).drop j).take site.length =
      Digestion.revcomp ((u.drop (u.length - j - site.length)).take site.length) := by
  unfold Digestion.revcomp
  rw [List.drop_reverse, List.take_reverse, List.drop_take]
  rw [List.map_take, List.map_drop]
  congr 2
  all_goals simp
  all_goals omega

theorem matchesAt_revcomp_iff {site u : List Char} {j : Nat}
    (hsite : site ≠ []) (hpal : Digestion.revcomp site = site) :
    (matchesAt site (Digestion.revcomp u) j = true) ↔
      (j + site.length ≤ u.length ∧
        matchesAt site u (u.length - j - site.length) = true) := by
  constructor
  · intro h
    have hb := matchesAt_bound hsite h
    rw [revcomp_length] at hb
    refine ⟨hb, ?_⟩
    have hseg : ((Digestion.revcomp u).drop j).take site.length = site := by
      simpa [matchesAt] using h
    rw [revcomp_seg u site j hb] at hseg
    have hseg2 := congrArg Digestion.revcomp hseg
    rw [revcomp_revcomp, hpal] at hseg2
    simp [matchesAt, hseg2]
  · rintro ⟨hb, h⟩
    have hseg : (u.drop (u.length - j - site.length)).take site.length = site := by
      simpa [matchesAt] using h
    simp only [matchesAt, beq_iff_eq]
    rw [revcomp_seg u site j hb, hseg, hpal]

theorem occ_unique {site u : List Char} {p : Nat} (hsite : site ≠ [])
    (hocc : occurrences site u = [p]) :
    matchesAt site u p = true ∧ ∀ j, matchesAt site u j = true → j = p := by
  have hpmem : p ∈ occurrences site u := by rw [hocc]; simp
  rw [occurrences, List.mem_filter] at hpmem
  refine ⟨hpmem.2, fun j hj => ?_⟩
  have hb := matchesAt_bound hsite hj
  have hjmem : j ∈ occurrences site u := by
    rw [occurrences, List.mem_filter]
    exact ⟨List.mem_range.mpr (by omega), hj⟩
  rw [hocc] at hjmem
  simpa using hjmem

theorem addInfo_left3 (st : Digestion.ScanState) (m : String) :
    (Digestion.addInfo st m).left3 = st.left3 := by
  unfold Digestion.addInfo
  split <;> rfl

theorem addInfo_right5 (st : Digestion.ScanState) (m : String) :
    (Digestion.addInfo st m).right5 = st.right5 := by
  unfold Digestion.addInfo
  split <;> rfl

theorem ite_addInfo_borders (c : Prop) [Decidable c] (st : Digestion.ScanState) (m : String) :
    (if c then Digestion.addInfo st m else st).borders = st.borders := by
  split
  · exact addInfo_borders st m
  · rfl

theorem ite_addInfo_left3 (c : Prop) [Decidable c] (st : Digestion.ScanState) (m : String) :
    (if c then Digestion.addInfo st m else st).left3 = st.left3 := by
  split
  · exact addInfo_left3 st m
  · rfl

theorem ite_addInfo_right5 (c : Prop) [Decidable c] (st : Digestion.ScanState) (m : String) :
    (if c then Digestion.addInfo st m else st).right5 = st.right5 := by
  split
  · exact addInfo_right5 st m
  · rfl

theorem cut_to_boundary_cast (p L : Nat) (hp : p + 1 ≤ L) :
    Digestion.cut_to_boundary (Int.ofNat p) 1 L = p := by
  unfold Digestion.cut_to_boundary
  simp only [Int.ofNat_eq_natCast]
  have h1 : ((p : Int) + ((1 : Nat) : Int) - 1 + (L : Int)) = (p : Int) + (L : Int) * 1 := by
    push_cast
    ring
  rw [h1, Int.add_mul_emod_self_left, Int.emod_eq_of_lt (by omega) (by omega)]
  omega

theorem addCut_left3 (st : Digestion.ScanState) (b : Nat) (l3 r5 : FragmentEnd) :
    (Digestion.addCut st b l3 r5).left3 = (b, l3) :: st.left3 := rfl

theorem addCut_right5 (st : Digestion.ScanState) (b : Nat) (l3 r5 : FragmentEnd) :
    (Digestion.addCut st b l3 r5).right5 = (b, r5) :: st.right5 := rfl

theorem scanF_fields (u : List Char) (p : Nat) (hp6 : p + 6 ≤ u.length)
    (hfwd : findIter ecoSite u = [p]) (st : Digestion.ScanState) :
    (Digestion.scanForward u u.length false "EcoRI" ecoSite 1 5 st).borders
        = st.borders ++ [p] ∧
    (Digestion.scanForward u u.length false "EcoRI" ecoSite 1 5 st).left3
        = (p, ⟨EndType.fiveOverhang, "AATT".toList, 4⟩) :: st.left3 ∧
    (Digestion.scanForward u u.length false "EcoRI" ecoSite 1 5 st).right5
        = (p, ⟨EndType.fiveOverhang, "AATT".toList, 4⟩) :: st.right5 := by
  unfold Digestion.scanForward
  rw [hfwd, List.foldl_cons, List.foldl_nil]
  dsimp only []
  rw [show Digestion.end_objects (Digestion.calc_overhang ecoSite 1 5).1
      (Digestion.calc_overhang ecoSite 1 5).2 =
    (⟨EndType.fiveOverhang, "AATT".toList, 4⟩,
     ⟨EndType.fiveOverhang, "AATT".toList, 4⟩) from rfl]
  rw [cut_to_boundary_cast p u.length (by omega)]
  exact ⟨by rw [addCut_borders, ite_addInfo_borders],
         by rw [addCut_left3, ite_addInfo_left3],
         by rw [addCut_right5, ite_addInfo_right5]⟩

theorem apply_rev_p (u : List Char) (p : Nat) (hp6 : p + 6 ≤ u.length) :
    Digestion.apply_rev_orientation (u.length - 6 - p) 6 u.length = Int.ofNat p := by
  unfold Digestion.apply_rev_orientation
  simp only [Int.ofNat_eq_natCast]
  omega

theorem scanR_fields (u : List Char) (p : Nat) (hp6 : p + 6 ≤ u.length)
    (hrev : findIter ecoSite (Digestion.revcomp u) = [u.length - 6 - p])
    (st : Digestion.ScanState) :
    (Digestion.scanReverse u u.length false "EcoRI" ecoSite 1 5 st).borders
        = st.borders ++ [p] ∧
    (Digestion.scanReverse u u.length false "EcoRI" ecoSite 1 5 st).left3
        = (p, ⟨EndType.fiveOverhang, "AATT".toList, 4⟩) :: st.left3 ∧
    (Digestion.scanReverse u u.length false "EcoRI" ecoSite 1 5 st).right5
        = (p, ⟨EndType.fiveOverhang, "AATT".toList, 4⟩) :: st.right5 := by
  unfold Digestion.scanReverse
  simp only [hrev, List.foldl_cons, List.foldl_nil]
  rw [show ecoSite.length = 6 from rfl]
  rw [apply_rev_p u p hp6]
  rw [show Digestion.calc_overhang ecoSite (6 - 5) (6 - 1) =
    (EndType.fiveOverhang, "AATT".toList) from rfl]
  rw [show Digestion.end_objects EndType.fiveOverhang "AATT".toList =
    (⟨EndType.fiveOverhang, "AATT".toList, 4⟩,
     ⟨EndType.fiveOverhang, "AATT".toList, 4⟩) from rfl]
  rw [cut_to_boundary_cast p u.length (by omega)]
  exact ⟨by rw [addCut_borders, ite_addInfo_borders],
         by rw [addCut_left3, ite_addInfo_left3],
         by rw [addCut_right5, ite_addInfo_right5]⟩

theorem scanEnzyme_eco (u : List Char) :
    Digestion.scanEnzyme u u.length false ⟨[], [], [], []⟩
        ⟨"EcoRI", "GAATTC".toList, 1, 5⟩ =
      .ok (Digestion.scanReverse u u.length false "EcoRI" ecoSite 1 5
            (Digestion.scanForward u u.length false "EcoRI" ecoSite 1 5 ⟨[], [], [], []⟩)) := by
  unfold Digestion.scanEnzyme
  rw [if_neg (by decide), if_neg (by decide), if_neg (by decide), if_neg (by simp)]
  rw [show upperL "GAATTC".toList = ecoSite from by decide]

/-- C3: a linear record whose (uppercased) sequence contains exactly one
EcoRI site yields exactly two fragments whose lengths sum to the record
length; the first fragment's 3' end and the second fragment's 5' end are
both the 4-base 5'-overhang `AATT`. -/
theorem C3_ecoRI_two_fragments (rec : SequenceRecord) (p : Nat)
    (hlin : rec.circular = false)
    (hocc : occurrences ecoSite (upperL rec.sequence) = [p]) :
    ∃ res, Digestion.simulate_restriction_digestion rec ["EcoRI"] = .ok res ∧
      res.fragments.length = 2 ∧
      ((res.fragments.map (fun fr => fr.length)).sum = rec.sequence.length) ∧
      (res.fragments.getD 0 default).overhang_3 =
        ⟨EndType.fiveOverhang, "AATT".toList, 4⟩ ∧
      (res.fragments.getD 1 default).overhang_5 =
        ⟨EndType.fiveOverhang, "AATT".toList, 4⟩ := by
  have hsne : ecoSite ≠ [] := by decide
  have hpal : Digestion.revcomp ecoSite = ecoSite := by decide
  obtain ⟨hmp, huniq⟩ := occ_unique hsne hocc
  have hp6 : p + 6 ≤ (upperL rec.sequence).length := by
    have hb := matchesAt_bound hsne hmp
    rw [show ecoSite.length = 6 from rfl] at hb
    exact hb
  have hslen : (upperL rec.sequence).length = rec.sequence.length := by simp [upperL]
  have hfwd : findIter ecoSite (upperL rec.sequence) = [p] :=
    findIter_unique hsne hmp huniq
  have hrevm : matchesAt ecoSite (Digestion.revcomp (upperL rec.sequence))
      ((upperL rec.sequence).length - 6 - p) = true := by
    rw [matchesAt_revcomp_iff hsne hpal]
    rw [show ecoSite.length = 6 from rfl]
    refine ⟨by omega, ?_⟩
    rw [show (upperL rec.sequence).length - ((upperL rec.sequence).length - 6 - p) - 6
        = p from by omega]
    exact hmp
  have hrevu : ∀ j, matchesAt ecoSite (Digestion.revcomp (upperL rec.sequence)) j = true →
      j = (upperL rec.sequence).length - 6 - p := by
    intro j hj
    rw [matchesAt_revcomp_iff hsne hpal] at hj
    rw [show ecoSite.length = 6 from rfl] at hj
    have hjq := huniq _ hj.2
    have hj1 := hj.1
    omega
  have hrev : findIter ecoSite (Digestion.revcomp (upperL rec.sequence)) =
      [(upperL rec.sequence).length - 6 - p] := findIter_unique hsne hrevm hrevu
  obtain ⟨hb2, hl2, hr2⟩ := scanR_fields (upperL rec.sequence) p hp6 hrev
    (Digestion.scanForward (upperL rec.sequence) (upperL rec.sequence).length false
      "EcoRI" ecoSite 1 5 ⟨[], [], [], []⟩)
  obtain ⟨hb1, hl1, hr1⟩ := scanF_fields (upperL rec.sequence) p hp6 hfwd ⟨[], [], [], []⟩
  set stR := Digestion.scanReverse (upperL rec.sequence) (upperL rec.sequence).length false
      "EcoRI" ecoSite 1 5
      (Digestion.scanForward (upperL rec.sequence) (upperL rec.sequence).length false
        "EcoRI" ecoSite 1 5 ⟨[], [], [], []⟩) with hstR
  have hbR : stR.borders = [p, p] := by
    rw [hstR, hb2, hb1]
    rfl
  have hl3R : stR.left3 = [(p, ⟨EndType.fiveOverhang, "AATT".toList, 4⟩),
      (p, ⟨EndType.fiveOverhang, "AATT".toList, 4⟩)] := by
    rw [hstR, hl2, hl1]
  have hr5R : stR.right5 = [(p, ⟨EndType.fiveOverhang, "AATT".toList, 4⟩),
      (p, ⟨EndType.fiveOverhang, "AATT".toList, 4⟩)] := by
    rw [hstR, hr2, hr1]
  have hfold : List.foldlM
      (Digestion.scanEnzyme (upperL rec.sequence) (upperL rec.sequence).length false)
      (⟨[], [], [], []⟩ : Digestion.ScanState)
      [⟨"EcoRI", "GAATTC".toList, 1, 5⟩] = .ok stR := by
    rw [List.foldlM_cons, scanEnzyme_eco]
    rfl
  have hsim : Digestion.simulate_restriction_digestion rec ["EcoRI"] =
      .ok (Digestion.assembleResult ["EcoRI"] (upperL rec.sequence)
        (upperL rec.sequence).length false stR) := by
    unfold Digestion.simulate_restriction_digestion
    dsimp only []
    rw [show Digestion.lookupEnzymes ["EcoRI"] =
      .ok [⟨"EcoRI", "GAATTC".toList, 1, 5⟩] from rfl]
    dsimp only []
    rw [hlin]
    rw [if_neg (by omega : ¬ (upperL rec.sequence).length = 0)]
    rw [hfold]
    dsimp only []
    rw [hbR]
    rw [if_neg (by simp)]
  have hcs : Digestion.sortedCuts [p, p] = [p] := by
    unfold Digestion.sortedCuts
    rw [show ([p, p] : List Nat).dedup = [p] from by simp]
    simp [List.insertionSort, List.orderedInsert]
  have hfindp : Digestion.mapFind stR.left3 p =
      some ⟨EndType.fiveOverhang, "AATT".toList, 4⟩ := by
    rw [hl3R]
    simp [Digestion.mapFind]
  have hfindp5 : Digestion.mapFind stR.right5 p =
      some ⟨EndType.fiveOverhang, "AATT".toList, 4⟩ := by
    rw [hr5R]
    simp [Digestion.mapFind]
  have hfindL1 : Digestion.mapFind stR.left3 ((upperL rec.sequence).length - 1) = none := by
    rw [hl3R]
    simp [Digestion.mapFind, List.find?_eq_none]
    omega
  have hlf1 : ∃ f1, Digestion.linFragment (upperL rec.sequence)
      (upperL rec.sequence).length stR.left3 stR.right5 (-1) (Int.ofNat p) = some f1 ∧
      f1.length = p + 1 ∧ f1.overhang_5 = bluntEnd ∧
      f1.overhang_3 = ⟨EndType.fiveOverhang, "AATT".toList, 4⟩ := by
    unfold Digestion.linFragment
    rw [if_neg (by simp only [Int.ofNat_eq_natCast]; omega)]
    refine ⟨_, rfl, ?_, ?_, ?_⟩
    · show (Int.ofNat p - (-1 + 1) + 1).toNat = p + 1
      simp only [Int.ofNat_eq_natCast]
      omega
    · show (if (-1 : Int) = -1 then bluntEnd
          else (Digestion.mapFind stR.right5 (-1 : Int).toNat).getD bluntEnd) = bluntEnd
      rw [if_pos rfl]
    · show (if Int.ofNat p = ((upperL rec.sequence).length : Int) - 1 ∧
            Digestion.mapFind stR.left3 (Int.ofNat p).toNat = none then bluntEnd
          else (Digestion.mapFind stR.left3 (Int.ofNat p).toNat).getD bluntEnd) =
        ⟨EndType.fiveOverhang, "AATT".toList, 4⟩
      rw [show (Int.ofNat p).toNat = p from rfl]
      rw [if_neg (by rw [hfindp]; simp)]
      rw [hfindp]
      rfl
  have hlf2 : ∃ f2, Digestion.linFragment (upperL rec.sequence)
      (upperL rec.sequence).length stR.left3 stR.right5 (Int.ofNat p)
        (((upperL rec.sequence).length : Int) - 1) = some f2 ∧
      f2.length = (upperL rec.sequence).length - 1 - p ∧
      f2.overhang_5 = ⟨EndType.fiveOverhang, "AATT".toList, 4⟩ ∧
      f2.overhang_3 = bluntEnd := by
    unfold Digestion.linFragment
    rw [if_neg (by simp only [Int.ofNat_eq_natCast]; omega)]
    refine ⟨_, rfl, ?_, ?_, ?_⟩
    · show (((upperL rec.sequence).length : Int) - 1 - (Int.ofNat p + 1) + 1).toNat =
        (upperL rec.sequence).length - 1 - p
      simp only [Int.ofNat_eq_natCast]
      omega
    · show (if Int.ofNat p = -1 then bluntEnd
          else (Digestion.mapFind stR.right5 (Int.ofNat p).toNat).getD bluntEnd) =
        ⟨EndType.fiveOverhang, "AATT".toList, 4⟩
      rw [if_neg (by simp only [Int.ofNat_eq_natCast]; omega)]
      rw [show (Int.ofNat p).toNat = p from rfl, hfindp5]
      rfl
    · show (if ((upperL rec.sequence).length : Int) - 1 =
              ((upperL rec.sequence).length : Int) - 1 ∧
            Digestion.mapFind stR.left3 (((upperL rec.sequence).length : Int) - 1).toNat
              = none then bluntEnd
          else (Digestion.mapFind stR.left3
            (((upperL rec.sequence).length : Int) - 1).toNat).getD bluntEnd) = bluntEnd
      rw [show (((upperL rec.sequence).length : Int) - 1).toNat =
        (upperL rec.sequence).length - 1 from by omega]
      rw [if_pos ⟨rfl, hfindL1⟩]
  obtain ⟨f1, hf1eq, hf1len, hf1o5, hf1o3⟩ := hlf1
  obtain ⟨f2, hf2eq, hf2len, hf2o5, hf2o3⟩ := hlf2
  have hdec : Int.ofNat p ≤ ((upperL rec.sequence).length : Int) - 2 := by
    simp only [Int.ofNat_eq_natCast]
    omega
  have hlfr : Digestion.linearFragments (upperL rec.sequence)
      (upperL rec.sequence).length stR.left3 stR.right5 [p] = [f1, f2] := by
    unfold Digestion.linearFragments
    rw [show List.filter (fun b => decide (Int.ofNat b ≤ ((upperL rec.sequence).length : Int) - 2)) [p]
        = [p] from by simp [List.filter_cons]; omega]
    show List.filterMap
        (fun q => Digestion.linFragment (upperL rec.sequence) (upperL rec.sequence).length
          stR.left3 stR.right5 q.1 q.2)
        [((-1 : Int), Int.ofNat p), (Int.ofNat p, ((upperL rec.sequence).length : Int) - 1)]
      = [f1, f2]
    rw [List.filterMap_cons, List.filterMap_cons, List.filterMap_nil]
    rw [show Digestion.linFragment (upperL rec.sequence) (upperL rec.sequence).length
        stR.left3 stR.right5 ((-1 : Int), Int.ofNat p).1 ((-1 : Int), Int.ofNat p).2
      = some f1 from hf1eq]
    rw [show Digestion.linFragment (upperL rec.sequence) (upperL rec.sequence).length
        stR.left3 stR.right5 (Int.ofNat p, ((upperL rec.sequence).length : Int) - 1).1
          (Int.ofNat p, ((upperL rec.sequence).length : Int) - 1).2
      = some f2 from hf2eq]
  have hasm : (Digestion.assembleResult ["EcoRI"] (upperL rec.sequence)
      (upperL rec.sequence).length false stR).fragments =
      Digestion.linearFragments (upperL rec.sequence) (upperL rec.sequence).length
        stR.left3 stR.right5 [p] := by
    unfold Digestion.assembleResult
    dsimp only []
    rw [hbR, hcs]
    rw [if_neg (by simp)]
  refine ⟨_, hsim, ?_, ?_, ?_, ?_⟩
  · show (Digestion.assembleResult ["EcoRI"] (upperL rec.sequence)
        (upperL rec.sequence).length false stR).fragments.length = 2
    rw [hasm, hlfr]
    rfl
  · show ((Digestion.assembleResult ["EcoRI"] (upperL rec.sequence)
        (upperL rec.sequence).length false stR).fragments.map (fun fr => fr.length)).sum
      = rec.sequence.length
    rw [hasm, hlfr]
    simp only [List.map_cons, List.map_nil, List.sum_cons, List.sum_nil, hf1len, hf2len]
    omega
  · rw [hasm, hlfr]
    simpa using hf1o3
  · rw [hasm, hlfr]
    simpa using hf2o5

/-- C3, witness: the single-site property evaluated on the concrete linear
record `recW` (site at 0-based position 6; fragments of lengths 7 and 11). -/
theorem C3_witness :
    ∃ res, Digestion.simulate_restriction_digestion recW ["EcoRI"] = .ok res ∧
      res.fragments.length = 2 ∧
      ((res.fragments.map (fun fr => fr.length)).sum = recW.sequence.length) ∧
      (res.fragments.getD 0 default).overhang_3 =
        ⟨EndType.fiveOverhang, "AATT".toList, 4⟩ ∧
      (res.fragments.getD 1 default).overhang_5 =
        ⟨EndType.fiveOverhang, "AATT".toList, 4⟩ :=
  C3_ecoRI_two_fragments recW 6 rfl (by decide)

end PrimerPioneer
